import Mathlib

/-!
Verification development for the level-metadata extraction and
play-statistics capture subsystem of a game-content launcher
(TypeScript source, Tauri + Vue).  The TypeScript functions are shallowly
embedded as executable Lean definitions: JavaScript `Map` objects become
insertion-ordered association lists, JS strings become Lean `String`s
(operating on their `List Char` data), 32-bit unsigned arithmetic becomes
`Nat` arithmetic taken `% 2^32`, and fallible operations return `Option`
or `Except`.  External collaborators (the filesystem, `fflate`'s
`unzipSync`) are passed in as explicit parameters of the environment.
-/

set_option autoImplicit false

namespace DoomLauncher

/-! ### JavaScript `Map` semantics over association lists

`Map.get`, `Map.has` and `Map.set`: `set` updates the value in place when
the key is present (keeping its position) and appends otherwise. -/

/-- Model of JS `Map.get`: the value stored under the key, if any
(a JS `Map` holds each key at most once, so first occurrence suffices). -/
def jget {α : Type} : List (String × α) → String → Option α
  | [], _ => none
  | p :: t, k => if p.1 = k then some p.2 else jget t k

/-- Model of JS `Map.has`. -/
def jhas {α : Type} (m : List (String × α)) (k : String) : Bool :=
  (jget m k).isSome

/-- Model of JS `Map.set`: overwrite in place when present (keeping the
entry's position), append otherwise. -/
def jset {α : Type} : List (String × α) → String → α → List (String × α)
  | [], k, v => [(k, v)]
  | p :: t, k, v => if p.1 = k then (k, v) :: t else p :: jset t k v

/-! ### JavaScript string primitives (ASCII fragment) -/

/-- Whitespace characters recognised by JS `trim` / regex `\s` (ASCII fragment). -/
def isWS (c : Char) : Bool :=
  c == ' ' || c == '\t' || c == '\n' || c == '\r' || c == '\x0b' || c == '\x0c'

/-- Word characters matched by regex `\w`: `[A-Za-z0-9_]`. -/
def isWordChar (c : Char) : Bool :=
  ('a' ≤ c && c ≤ 'z') || ('A' ≤ c && c ≤ 'Z') || ('0' ≤ c && c ≤ '9') || c == '_'

/-- Decimal digit, regex `\d`. -/
def isDigitCh (c : Char) : Bool :=
  '0' ≤ c && c ≤ '9'

/-- JS `String.prototype.trim` on the character list. -/
def jsTrimL (l : List Char) : List Char :=
  ((l.dropWhile isWS).reverse.dropWhile isWS).reverse

/-- JS `String.prototype.trim`. -/
def jsTrim (s : String) : String :=
  String.mk (jsTrimL s.data)

/-- JS `String.prototype.toUpperCase` (ASCII). -/
def upperStr (s : String) : String :=
  String.mk (s.data.map Char.toUpper)

/-- JS `"x".split(sep)` for a one-character separator, on the character
list. -/
def splitOnCharL (sep : Char) : List Char → List (List Char)
  | [] => [[]]
  | c :: rest =>
    if c = sep then [] :: splitOnCharL sep rest
    else
      match splitOnCharL sep rest with
      | [] => [[c]]
      | l :: ls => (c :: l) :: ls

/-- JS `"x".split("\n")` on the character list: split at every newline. -/
def splitLinesL : List Char → List (List Char) :=
  splitOnCharL '\n'

/-- JS `content.split("\n")`, as strings. -/
def splitLines (s : String) : List String :=
  (splitLinesL s.data).map String.mk

/-- JS `s.split(sep)` for a one-character separator, as strings. -/
def jsSplit (sep : Char) (s : String) : List String :=
  (splitOnCharL sep s.data).map String.mk

/-- JS `String.prototype.toLowerCase` (ASCII). -/
def lowerStr (s : String) : String :=
  String.mk (s.data.map Char.toLower)

/-- JS `String.prototype.endsWith`. -/
def jsEndsWith (s suffix : String) : Bool :=
  s.data.drop (s.data.length - suffix.data.length) == suffix.data

/-- Case-insensitive prefix test on character lists (ASCII lower-casing,
as performed by a regex `i` flag). -/
def ciPrefix : List Char → List Char → Bool
  | [], _ => true
  | _ :: _, [] => false
  | c :: cs, d :: ds => (c.toLower == d.toLower) && ciPrefix cs ds

/-- Drop a case-insensitive keyword from the front, or fail. -/
def dropCIKeyword (pre s : List Char) : Option (List Char) :=
  if ciPrefix pre s then some (s.drop pre.length) else none

/-- Model of JS `Array.prototype.indexOf` on a string list: `-1` when absent. -/
def jsIndexOf (l : List String) (s : String) : Int :=
  match l.findIdx? (fun x => x == s) with
  | some i => (i : Int)
  | none => -1

/-! ### djb2 hash, hex rendering, JSON serialization -/

/-- One djb2 step as the source performs it:
`hash = ((hash << 5) + hash) + str.charCodeAt(i); hash = hash >>> 0`.
For `h < 2^32` the JS arithmetic is exact, so the step is
`(33 * h + c) mod 2^32`. -/
def djb2Step (h : Nat) (c : Char) : Nat :=
  (h * 33 + c.toNat) % 4294967296

/-- The djb2 hash of a string, starting from 5381, kept as an unsigned
32-bit value exactly as `hash >>> 0` does. -/
def djb2 (s : String) : Nat :=
  s.data.foldl djb2Step 5381

/-- Hexadecimal digits, most significant first, lowercase; structural
recursion on a digit-count fuel so the kernel can evaluate it. -/
def hexDigitsAux : Nat → Nat → List Char
  | 0, n => [Nat.digitChar n]
  | fuel + 1, n =>
    if n < 16 then [Nat.digitChar n]
    else hexDigitsAux fuel (n / 16) ++ [Nat.digitChar (n % 16)]

/-- Hexadecimal digits of `n` (JS `Number.prototype.toString(16)`): fuel
8 renders every unsigned 32-bit value, which is all `hash >>> 0` can
produce. -/
def hexDigits (n : Nat) : List Char :=
  hexDigitsAux 8 n

/-- JS `n.toString(16)` for an unsigned 32-bit integer. -/
def hexStr (n : Nat) : String :=
  String.mk (hexDigits n)

/-- JS `s.padStart(8, "0")`. -/
def padStart8 (s : String) : String :=
  if s.length < 8 then String.mk (List.replicate (8 - s.length) '0') ++ s else s

/-- JSON string escaping for one character, as `JSON.stringify` performs it. -/
def jsonEscChar (c : Char) : List Char :=
  if c = '"' then ['\\', '"']
  else if c = '\\' then ['\\', '\\']
  else if c = '\n' then ['\\', 'n']
  else if c = '\r' then ['\\', 'r']
  else if c = '\t' then ['\\', 't']
  else if c = '\x08' then ['\\', 'b']
  else if c = '\x0c' then ['\\', 'f']
  else if c.toNat < 32 then
    ['\\', 'u', '0', '0', Nat.digitChar (c.toNat / 16), Nat.digitChar (c.toNat % 16)]
  else [c]

/-- A JSON string literal (quotes included) for a string value. -/
def jsonStr (s : String) : String :=
  String.mk ('"' :: (s.data.foldr (fun c acc => jsonEscChar c ++ acc) ['"']))

/-! ### Data model (`statsSchema.ts`) -/

/-- The five GZDoom skill tiers (`SkillLevelSchema`). -/
inductive SkillLevel where
  | ITYTD
  | HNTR
  | HMP
  | UV
  | NM
deriving DecidableEq

/-- The string value of a skill tier, as stored in JSON. -/
def skillToString : SkillLevel → String
  | .ITYTD => "ITYTD"
  | .HNTR => "HNTR"
  | .HMP => "HMP"
  | .UV => "UV"
  | .NM => "NM"

/-- Lookup in the `SKILL_FROM_NUMBER` record (`statsSchema.ts`): keys 0–4,
anything else is absent (JS `undefined`). -/
def SKILL_FROM_NUMBER (k : Int) : Option SkillLevel :=
  if k = 0 then some .ITYTD
  else if k = 1 then some .HNTR
  else if k = 2 then some .HMP
  else if k = 3 then some .UV
  else if k = 4 then some .NM
  else none

/-- Per-level statistics of a play session (`LevelPlayStatsSchema`). -/
structure LevelPlayStats where
  id : String
  name : String
  kills : Nat
  totalKills : Nat
  items : Nat
  totalItems : Nat
  secrets : Nat
  totalSecrets : Nat
  timeTics : Nat
deriving DecidableEq

/-- A play session before `capturedAt` is attached
(the `Omit<PlaySession, "capturedAt">` used throughout `useStats`). -/
structure SessionCore where
  schemaVersion : Nat
  wadSlug : String
  startLevel : String
  skill : SkillLevel
  sourceFile : String
  levels : List LevelPlayStats
deriving DecidableEq

/-- A fully captured play session (`PlaySessionSchema`). -/
structure PlaySession extends SessionCore where
  capturedAt : String
deriving DecidableEq

/-! ### Session fingerprint (`generateSessionHash`) -/

/-- The fingerprint-relevant projection of one level's stats: exactly the
fields the hash payload serializes (`id, k, tk, i, ti, s, ts, t`). -/
def statsProj (l : LevelPlayStats) :
    String × Nat × Nat × Nat × Nat × Nat × Nat × Nat :=
  (l.id, l.kills, l.totalKills, l.items, l.totalItems, l.secrets, l.totalSecrets, l.timeTics)

/-- `JSON.stringify` of one element of the payload's `levels` array, as a
function of the projected fields only (the JS object literal contains
exactly these). -/
def levelPayloadT (p : String × Nat × Nat × Nat × Nat × Nat × Nat × Nat) : String :=
  "\x7b\"id\":" ++ jsonStr p.1 ++ ",\"k\":" ++ toString p.2.1 ++
  ",\"tk\":" ++ toString p.2.2.1 ++ ",\"i\":" ++ toString p.2.2.2.1 ++
  ",\"ti\":" ++ toString p.2.2.2.2.1 ++ ",\"s\":" ++ toString p.2.2.2.2.2.1 ++
  ",\"ts\":" ++ toString p.2.2.2.2.2.2.1 ++ ",\"t\":" ++ toString p.2.2.2.2.2.2.2 ++ "\x7d"

/-- `JSON.stringify` of the levels entry of the payload for one level. -/
def levelPayload (l : LevelPlayStats) : String :=
  levelPayloadT (statsProj l)

/-- `JSON.stringify(payload)` in `generateSessionHash`: the deterministic
string formed from gameplay data only. -/
def payloadString (s : SessionCore) : String :=
  "\x7b\"wad\":" ++ jsonStr s.wadSlug ++
  ",\"skill\":" ++ jsonStr (skillToString s.skill) ++
  ",\"start\":" ++ jsonStr s.startLevel ++
  ",\"levels\":[" ++ String.intercalate ("," ) (s.levels.map levelPayload) ++ "]\x7d"

/-- `generateSessionHash` (`useLevelNames.ts`, stats document): the djb2
hash of the serialized payload rendered as 8 zero-padded lowercase hex
digits. -/
def generateSessionHash (s : SessionCore) : String :=
  padStart8 (hexStr (djb2 (payloadString s)))

/-! ### Map-definition parsing (`parseMapinfoContent`)

The source matches each (trimmed) line against small regular expressions.
They are embedded here as explicit matchers over `List Char`, including
the one place where regex backtracking is observable (`\s*(.+)` /
`\s*"?([^"]+)"?` when everything after `=` is whitespace). -/

/-- Matcher for `/^\[(\w+)\]$/`: a whole line of the form `[ID]`. -/
def matchSectionT (t : String) : Option String :=
  match t.data with
  | '[' :: rest =>
    let w := rest.takeWhile isWordChar
    if w.isEmpty then none
    else if rest.drop w.length = [']'] then some (String.mk w) else none
  | _ => none

/-- Capture of `\s*(.+)` applied to the text after the `=`: the greedy
whitespace run backtracks by exactly one character when the remainder is
all whitespace (`.` matches a space). Returns `none` when the remainder
is empty. -/
def dotPlusCapture (r : List Char) : Option (List Char) :=
  if r.isEmpty then none
  else
    let c := r.dropWhile isWS
    if c.isEmpty then some (r.drop (r.length - 1)) else some c

/-- Matcher for `/^levelname\s*=\s*(.+)/i`, returning the capture. -/
def matchLevelnameT (t : String) : Option String :=
  match dropCIKeyword ("levelname").data t.data with
  | none => none
  | some r1 =>
    match r1.dropWhile isWS with
    | '=' :: r3 => (dotPlusCapture r3).map String.mk
    | _ => none

/-- The `"?([^"]+)"?` tail: an optional opening quote followed by a
nonempty run of non-quote characters. -/
def tryQuoteBody (r : List Char) : Option (List Char) :=
  match r with
  | '"' :: rest =>
    let b := rest.takeWhile (fun c => c != '"')
    if b.isEmpty then none else some b
  | _ =>
    let b := r.takeWhile (fun c => c != '"')
    if b.isEmpty then none else some b

/-- Capture of `\s*"?([^"]+)"?` applied to the text after the `=`:
greedy whitespace first, backtracking one character into the whitespace
run when the position after it admits no body. -/
def quoteCapture (r3 : List Char) : Option (List Char) :=
  let w := r3.takeWhile isWS
  let r4 := r3.dropWhile isWS
  match tryQuoteBody r4 with
  | some b => some b
  | none => if w.isEmpty then none else some [w.getLastD ' ']

/-- Matcher for `/^levelname\s*=\s*"?([^"]+)"?/i`, returning the capture. -/
def matchLevelnameQT (t : String) : Option String :=
  match dropCIKeyword ("levelname").data t.data with
  | none => none
  | some r1 =>
    match r1.dropWhile isWS with
    | '=' :: r3 => (quoteCapture r3).map String.mk
    | _ => none

/-- Matcher for `/^MAP\s+(\w+)/i`, returning the id capture. -/
def matchMapT (t : String) : Option String :=
  match dropCIKeyword ("map").data t.data with
  | none => none
  | some r1 =>
    if (r1.takeWhile isWS).isEmpty then none
    else
      let id := (r1.dropWhile isWS).takeWhile isWordChar
      if id.isEmpty then none else some (String.mk id)

/-- The replace of `new RegExp("^" + currentMap + ":\\s*", "i")` with `""`:
strip a leading `<ID>:` (case-insensitively) plus following whitespace. -/
def stripIdColon (cm : String) (name : String) : String :=
  let pre := cm.data ++ [':']
  if ciPrefix pre name.data then String.mk ((name.data.drop pre.length).dropWhile isWS)
  else name

/-- One line of the EMAPINFO loop of `parseMapinfoContent`: the state is
the open section (`currentMap`) and the `levels.set` events so far. -/
def emapinfoStep (acc : Option String × List (String × String)) (line : String) :
    Option String × List (String × String) :=
  match matchSectionT (jsTrim line) with
  | some w => (some (upperStr w), acc.2)
  | none =>
    match acc.1 with
    | none => acc
    | some cm =>
      match matchLevelnameT (jsTrim line) with
      | none => acc
      | some cap => (acc.1, acc.2 ++ [(cm, stripIdColon cm (jsTrim cap))])

/-- The sequence of `levels.set` events performed by the EMAPINFO branch
of `parseMapinfoContent`, in order.  The map written by the source is
write-only during the loop, so the branch's result is exactly these
events folded with `Map.set`. -/
def emapinfoEvents (content : String) : List (String × String) :=
  ((splitLines content).foldl emapinfoStep (none, [])).2

/-- The sequence of `levels.set` events performed by the UMAPINFO branch
of `parseMapinfoContent`, in order. -/
def umapinfoEvents (content : String) : List (String × String) :=
  ((splitLines content).foldl
    (fun (acc : Option String × List (String × String)) line =>
      let t := jsTrim line
      match matchMapT t with
      | some w => (some (upperStr w), acc.2)
      | none =>
        match acc.1 with
        | none => acc
        | some cm =>
          match matchLevelnameQT t with
          | none => acc
          | some cap => (acc.1, acc.2 ++ [(cm, jsTrim cap)]))
    (none, [])).2

/-- One attempted match of `/map\s+(\w+)\s+"([^"]+)"/i` anchored at the
current position: on success returns the id capture, the name capture
and the remaining input after the match. -/
def tryMatchMapAt (cs : List Char) : Option (List Char × List Char × List Char) :=
  match cs with
  | m :: a :: p :: r =>
    if m.toLower == 'm' && a.toLower == 'a' && p.toLower == 'p' then
      if (r.takeWhile isWS).isEmpty then none
      else
        let r1 := r.dropWhile isWS
        let id := r1.takeWhile isWordChar
        if id.isEmpty then none
        else
          let r2 := r1.drop id.length
          if (r2.takeWhile isWS).isEmpty then none
          else
            match r2.dropWhile isWS with
            | '"' :: r4 =>
              let body := r4.takeWhile (fun c => c != '"')
              if body.isEmpty then none
              else
                match r4.drop body.length with
                | '"' :: r5 => some (id, body, r5)
                | _ => none
            | _ => none
    else none
  | _ => none

/-- The global-regex scan of the MAPINFO/ZMAPINFO branch
(`pattern.exec` in a loop): leftmost matches, resuming after each match.
`fuel` bounds the recursion; every step advances at least one character,
so `fuel := cs.length` never runs out early. -/
def blockEventsAux : Nat → List Char → List (String × String)
  | 0, _ => []
  | _ + 1, [] => []
  | fuel + 1, c :: rest =>
    match tryMatchMapAt (c :: rest) with
    | some (id, body, r5) =>
      (upperStr (String.mk id), String.mk body) :: blockEventsAux fuel r5
    | none => blockEventsAux fuel rest

/-- The sequence of `levels.set` events performed by the MAPINFO/ZMAPINFO
branch of `parseMapinfoContent`, in order. -/
def blockEvents (content : String) : List (String × String) :=
  blockEventsAux content.data.length content.data

/-- The ordered `levels.set` events of one `parseMapinfoContent` call,
per grammar dialect. -/
def mapinfoAssignments (lumpName content : String) : List (String × String) :=
  if lumpName = "EMAPINFO" then emapinfoEvents content
  else if lumpName = "UMAPINFO" then umapinfoEvents content
  else blockEvents content

/-- `parseMapinfoContent` (`useLevelNames.ts`): the `levels` map is
write-only during each branch's loop, so the result equals the branch's
`set` events folded over an empty JS `Map`. -/
def parseMapinfoContent (lumpName content : String) : List (String × String) :=
  (mapinfoAssignments lumpName content).foldl (fun m kv => jset m kv.1 kv.2) []

/-! ### Save metadata comment parsing (`parseLevelNameFromComment`) -/

/-- Length of the `(MAP\d+|E\d+M\d+)` id alternative matched at the start
of the comment (the `MAP\d+` alternative is tried first). -/
def matchCommentIdLen (cs : List Char) : Option Nat :=
  let mapLen : Option Nat :=
    match cs with
    | m :: a :: p :: r =>
      if m.toLower == 'm' && a.toLower == 'a' && p.toLower == 'p' then
        let ds := r.takeWhile isDigitCh
        if ds.isEmpty then none else some (3 + ds.length)
      else none
    | _ => none
  match mapLen with
  | some n => some n
  | none =>
    match cs with
    | e :: r' =>
      if e.toLower == 'e' then
        let d1 := r'.takeWhile isDigitCh
        if d1.isEmpty then none
        else
          match r'.drop d1.length with
          | mm :: r'' =>
            if mm.toLower == 'm' then
              let d2 := r''.takeWhile isDigitCh
              if d2.isEmpty then none else some (1 + d1.length + 1 + d2.length)
            else none
          | [] => none
      else none
    | [] => none

/-- Capture of `\s*(.+)$` after the dash: greedy whitespace with one-step
backtracking, where `.` never matches a newline and `$` anchors at the
very end of the string. -/
def commentNameCapture (r2 : List Char) : Option (List Char) :=
  if r2.isEmpty then none
  else
    let c := r2.dropWhile isWS
    if c.isEmpty then
      if r2.getLastD ' ' = '\n' then none else some (r2.drop (r2.length - 1))
    else if c.contains '\n' then none else some c

/-- Matcher for `/^(MAP\d+|E\d+M\d+)\s*-\s*(.+)$/i` over the whole
comment: returns the id capture and the name capture. -/
def matchComment (cs : List Char) : Option (List Char × List Char) :=
  match matchCommentIdLen cs with
  | none => none
  | some idLen =>
    match (cs.drop idLen).dropWhile isWS with
    | '-' :: r2 => (commentNameCapture r2).map (fun nm => (cs.take idLen, nm))
    | _ => none

/-- `parseLevelNameFromComment` (`useLevelNames.ts`, stats document):
`"MAP13 - Polychromatic Terrace"` styled comments give an
(uppercased id, trimmed name) pair. -/
def parseLevelNameFromComment (comment : String) : Option (String × String) :=
  (matchComment comment.data).map
    (fun p => (upperStr (String.mk p.1), jsTrim (String.mk p.2)))

/-! ### Level-container (WAD) parsing

Modelled from the spec: `wadParser.ts` (`extractLevelNames`,
`extractLevelNamesFromData`) is not under `src/`; only its import site in
`useLevelNames.ts` is.  The definitions below follow §4.1/§6 of the
spec: a 12-byte header (4-byte magic, little-endian u32 lump count,
little-endian u32 directory offset) and 16-byte directory records
(u32 offset, u32 size, 8-byte NUL/space-padded name). -/

/-- A parse failure of the level-container format. -/
inductive FormatError where
  | tooSmall
  | badMagic
  | dirOutOfBounds
deriving DecidableEq

/-- One lump-directory entry. -/
structure LumpEntry where
  name : String
  offset : Nat
  size : Nat
deriving DecidableEq

/-- A parsed level-container: magic, declared lump count, directory
offset, and the directory entries in file order. -/
structure WadFile where
  magic : String
  lumpCount : Nat
  dirOffset : Nat
  lumps : List LumpEntry
deriving DecidableEq

/-- Little-endian 32-bit read at byte index `i`. -/
def u32le (b : List Nat) (i : Nat) : Nat :=
  b.getD i 0 + 256 * b.getD (i + 1) 0 + 65536 * b.getD (i + 2) 0 + 16777216 * b.getD (i + 3) 0

/-- The 4-byte magic tag, decoded as ASCII. -/
def wadMagic (b : List Nat) : String :=
  String.mk ((b.take 4).map Char.ofNat)

/-- Whether the magic is one of the two accepted container kinds. -/
def validWadMagic (b : List Nat) : Bool :=
  wadMagic b == "IWAD" || wadMagic b == "PWAD"

/-- Decode an 8-byte padded lump name: stop at the first NUL, strip
trailing spaces, compare case-insensitively (uppercase canonical form). -/
def decodeLumpName (bytes8 : List Nat) : String :=
  upperStr (String.mk
    ((((bytes8.takeWhile (fun n => n != 0)).map Char.ofNat).reverse.dropWhile
        (fun c => c == ' ')).reverse))

/-- The directory entry at index `i` (records start at the directory
offset, 16 bytes each: u32 offset, u32 size, 8-byte name). -/
def lumpEntryAt (b : List Nat) (dirOfs i : Nat) : LumpEntry :=
  { offset := u32le b (dirOfs + 16 * i)
    size := u32le b (dirOfs + 16 * i + 4)
    name := decodeLumpName ((b.drop (dirOfs + 16 * i + 8)).take 8) }

/-- The container a successful parse returns for `b`. -/
def mkWadFile (b : List Nat) : WadFile :=
  { magic := wadMagic b
    lumpCount := u32le b 4
    dirOffset := u32le b 8
    lumps := (List.range (u32le b 4)).map (lumpEntryAt b (u32le b 8)) }

/-- Modelled from the spec: the WadLumpParser parse of a raw byte buffer.
Fails with `FormatError` when the buffer is shorter than the 12-byte
header, when the magic is absent, or when the directory table extends
past the buffer end. -/
def parseWad (b : List Nat) : Except FormatError WadFile :=
  if b.length < 12 then .error .tooSmall
  else if !validWadMagic b then .error .badMagic
  else if b.length < u32le b 8 + 16 * u32le b 4 then .error .dirOutOfBounds
  else .ok (mkWadFile b)

/-- A well-formed container: long enough, accepted magic, directory table
inside the buffer, and every directory record's offset+size within the
buffer (the invariant of §3 of the spec). -/
def wellFormedWad (b : List Nat) : Bool :=
  12 ≤ b.length && validWadMagic b &&
  u32le b 8 + 16 * u32le b 4 ≤ b.length &&
  (List.range (u32le b 4)).all (fun i =>
    u32le b (u32le b 8 + 16 * i) + u32le b (u32le b 8 + 16 * i + 4) ≤ b.length)

/-- The four known map-definition lump names. -/
def mapinfoLumps : List String :=
  ["MAPINFO", "ZMAPINFO", "EMAPINFO", "UMAPINFO"]

/-- Decode a byte slice as text (`strFromU8`, ASCII/latin fragment). -/
def strFromU8 (bytes : List Nat) : String :=
  String.mk (bytes.map Char.ofNat)

/-- First-writer-wins merge of parsed levels into an accumulated map
(`if (!allLevels.has(mapId)) allLevels.set(mapId, levelName)`). -/
def mergeFirstWins (acc levels : List (String × String)) : List (String × String) :=
  levels.foldl (fun m kv => if jhas m kv.1 then m else jset m kv.1 kv.2) acc

/-- Modelled from the spec: `extractLevelNamesFromData` of the missing
`wadParser.ts` — parse the container, then scan its lumps restricted to
the known map-definition lump names, merging first-found-wins. -/
def extractLevelNamesFromData (bytes : List Nat) : Except FormatError (List (String × String)) :=
  (parseWad bytes).map (fun w =>
    w.lumps.foldl (fun acc e =>
      if mapinfoLumps.contains e.name then
        mergeFirstWins acc
          (parseMapinfoContent e.name (strFromU8 ((bytes.drop e.offset).take e.size)))
      else acc) [])

/-! ### Download validation (`validateDownload`, `useDownload.ts`) -/

/-- `validateDownload`: magic-byte check of a downloaded file, dispatched
on the lowercased filename extension. -/
def validateDownload (bytes : List Nat) (filename : String) : Except String Unit :=
  let ext := (jsSplit '.' (lowerStr filename)).getLastD ("")
  if ext = "zip" || ext = "pk3" then
    if bytes.length < 2 || bytes.getD 0 0 != 0x50 || bytes.getD 1 0 != 0x4b then
      .error ("Invalid ZIP file")
    else .ok ()
  else if ext = "wad" then
    if bytes.length < 4 then .error ("Invalid WAD file: too small")
    else if wadMagic bytes != "IWAD" && wadMagic bytes != "PWAD" then
      .error ("Invalid WAD file: bad magic")
    else .ok ()
  else .ok ()

/-! ### Save-state parsing (`parseSaveForStats`)

A save archive is modelled by the JSON values `parseSaveForStats`
actually reads out of its `globals.json` and `info.json` entries.
An absent entry, or one whose `JSON.parse` fails, is `none` (both routes
make the function return `null` / ignore the entry). -/

/-- The value found at `globals.servercvars.skill` after `Number(· ?? 2)`
coercion: either a (mathematical) integer or a value that coerces to
`NaN`. -/
inductive JsSkillVal where
  | num (k : Int)
  | nonNumeric
deriving DecidableEq

/-- One element of `globals.statistics.levels`, with the engine's native
field names.  A missing field is `none` (the source applies `?? 0` /
`?? ""` defaults). -/
structure RawLevel where
  levelname : Option String
  killcount : Option Nat
  totalkills : Option Nat
  itemcount : Option Nat
  totalitems : Option Nat
  secretcount : Option Nat
  totalsecrets : Option Nat
  leveltime : Option Nat
deriving DecidableEq

/-- The parts of `globals.json` that `parseSaveForStats` reads. -/
structure GlobalsData where
  statsLevels : Option (List RawLevel)
  skill : Option JsSkillVal
  startlevel : Option String
deriving DecidableEq

/-- One save-state archive as seen by `parseSaveForStats`: its file name,
its modification time (already rendered as an ISO string), and its two
JSON entries. -/
structure SaveArchive where
  name : String
  mtime : String
  globals : Option GlobalsData
  infoComment : Option (Option String)
deriving DecidableEq

/-- `parseSaveForStats` (`useLevelNames.ts`, stats document): extract a
candidate session (without `capturedAt`) from one save archive, or
`null`. -/
def parseSaveForStats (savePath saveFileName : String) (a : SaveArchive) :
    Option SessionCore :=
  match a.globals with
  | none => none
  | some g =>
    match g.statsLevels with
    | none => none
    | some lvls =>
      if lvls.isEmpty then none
      else
        let skill : SkillLevel :=
          match g.skill with
          | none => (SKILL_FROM_NUMBER 2).getD .HMP
          | some (.num k) => (SKILL_FROM_NUMBER k).getD .HMP
          | some .nonNumeric => .HMP
        let startLevel :=
          (g.startlevel.orElse (fun _ => lvls.head?.bind (fun lv => lv.levelname))).getD ("MAP01")
        let levelNameMap : List (String × String) :=
          match a.infoComment with
          | none => []
          | some c =>
            match parseLevelNameFromComment (c.getD ("")) with
            | some p => jset [] p.1 p.2
            | none => []
        let levels : List LevelPlayStats := lvls.map (fun lv =>
          let id := upperStr (lv.levelname.getD (""))
          { id := id
            name := (jget levelNameMap id).getD id
            kills := lv.killcount.getD 0
            totalKills := lv.totalkills.getD 0
            items := lv.itemcount.getD 0
            totalItems := lv.totalitems.getD 0
            secrets := lv.secretcount.getD 0
            totalSecrets := lv.totalsecrets.getD 0
            timeTics := lv.leveltime.getD 0 })
        let parts := jsSplit '/' savePath
        let slugIndex := jsIndexOf parts ("saves") + 1
        let wadSlug :=
          if slugIndex > 0 then (parts.getD slugIndex.toNat ("undefined"))
          else "unknown"
        some { schemaVersion := 1
               wadSlug := wadSlug
               startLevel := upperStr startLevel
               skill := skill
               sourceFile := saveFileName
               levels := levels }

/-! ### Session capture (`captureStats`)

The persistent state touched by `captureStats` is the stats directory:
its `level-names.json` map and its per-fingerprint session files (keyed
by file name, holding the persisted session).  `writeOk` tells whether a
`writeTextFile` to a given path succeeds; the source catches and logs a
failing write and continues with the remaining files. -/

/-- The stats directory of one content slug. -/
structure StatsState where
  levelNames : List (String × String)
  statsFiles : List (String × PlaySession)
deriving DecidableEq

/-- The accumulator of the per-save-file loop in `captureStats`. -/
structure CaptureAcc where
  ln : List (String × String)
  upd : Bool
  files : List (String × PlaySession)
  count : Nat
deriving DecidableEq

/-- The merge step for newly discovered level names: add `(id, name)`
when the parsed name differs from the id and the id is unknown. -/
def mergeStep (p : List (String × String) × Bool) (l : LevelPlayStats) :
    List (String × String) × Bool :=
  if l.name != l.id && !(jhas p.1 l.id) then (jset p.1 l.id l.name, true) else p

/-- Backfill a level whose name still equals its id from the known-names
map. -/
def applyNames (ln : List (String × String)) (l : LevelPlayStats) : LevelPlayStats :=
  if l.name == l.id && jhas ln l.id then { l with name := (jget ln l.id).getD l.name }
  else l

/-- Processing of one save file inside `captureStats`: parse, merge new
names, backfill names, fingerprint, dedup against existing session
files, persist when the write succeeds (a failing write is logged and
skipped). -/
def captureStep (writeOk : String → Bool) (savesDir statsDir : String)
    (acc : CaptureAcc) (save : SaveArchive) : CaptureAcc :=
  match parseSaveForStats (savesDir ++ "/" ++ save.name) save.name save with
  | none => acc
  | some session =>
    let m := session.levels.foldl mergeStep (acc.ln, acc.upd)
    let levels2 := session.levels.map (applyNames m.1)
    let session2 := { session with levels := levels2 }
    let fname := generateSessionHash session2 ++ ".json"
    if jhas acc.files fname then { acc with ln := m.1, upd := m.2 }
    else if writeOk (statsDir ++ "/" ++ fname) then
      { ln := m.1, upd := m.2
        files := jset acc.files fname { session2 with capturedAt := save.mtime }
        count := acc.count + 1 }
    else { acc with ln := m.1, upd := m.2 }

/-- `captureStats` (`useLevelNames.ts`, stats document): capture stats
from all `.zds` save files of a slug, returning the new state of the
stats directory and the number of newly captured sessions.  The final
`level-names.json` write only lands when it succeeds; either way the
function returns normally. -/
def captureStats (writeOk : String → Bool) (lib slug : String)
    (savesDirExists : Bool) (saves : List SaveArchive) (st : StatsState) :
    StatsState × Nat :=
  if !savesDirExists then (st, 0)
  else
    let savesDir := lib ++ "/saves/" ++ slug
    let statsDir := lib ++ "/stats/" ++ slug
    let saveFiles := saves.filter (fun a => jsEndsWith a.name (".zds"))
    let acc := saveFiles.foldl (captureStep writeOk savesDir statsDir)
      ⟨st.levelNames, false, st.statsFiles, 0⟩
    let finalLn :=
      if acc.upd && writeOk (statsDir ++ "/level-names.json") then acc.ln
      else st.levelNames
    ({ levelNames := finalLn, statsFiles := acc.files }, acc.count)

/-! ### Level-name resolution (`loadLevelNames`, resolver document)

The resolver's environment: the in-memory cache, the persisted per-slug
JSON maps, the download ledger, and the two external collaborators
(`readFile` on a path and `fflate.unzipSync` on raw bytes), both of
which may throw. -/

/-- The state and collaborators `loadLevelNames` touches. -/
structure ResolverEnv where
  cache : List (String × List (String × String))
  storage : List (String × List (String × String))
  downloads : List (String × String)
  readFile : String → Except Unit (List Nat)
  unzip : List Nat → Except Unit (List (String × List Nat))

/-- The recomputation tier of `loadLevelNames` (its lines between the
download-ledger lookup and the emptiness check): `none` when the ledger
has no entry or an exception escapes to the outer catch, otherwise the
accumulated `allLevels` map. -/
def recomputeLevels (env : ResolverEnv) (lib slug : String) :
    Option (List (String × String)) :=
  match jget env.downloads slug with
  | none => none
  | some filename =>
    let filePath := lib ++ "/" ++ filename
    let fn := lowerStr filename
    if jsEndsWith fn (".zip") || jsEndsWith fn (".pk3") then
      match env.readFile filePath with
      | .error _ => none
      | .ok bytes =>
        match env.unzip bytes with
        | .error _ => some []
        | .ok entries =>
          let pass1 := entries.foldl (fun acc e =>
            if jsEndsWith (lowerStr e.1) (".wad") then
              match extractLevelNamesFromData e.2 with
              | .error _ => acc
              | .ok levels => mergeFirstWins acc levels
            else acc) []
          let pass2 := entries.foldl (fun acc e =>
            let baseName := upperStr (((jsSplit '/' e.1).getLast?).getD (""))
            if mapinfoLumps.contains baseName then
              mergeFirstWins acc (parseMapinfoContent baseName (strFromU8 e.2))
            else acc) pass1
          some pass2
    else if jsEndsWith fn (".wad") then
      match env.readFile filePath with
      | .error _ => none
      | .ok bytes =>
        match extractLevelNamesFromData bytes with
        | .error _ => none
        | .ok levels => some levels
    else some []

/-- `loadLevelNames` (`useLevelNames.ts`, resolver document): resolve a
slug's level-name map through the three tiers — memory cache, persisted
storage (cached when non-empty), recomputation from the installed file
(cached and persisted only when non-empty). -/
def loadLevelNames (env : ResolverEnv) (lib slug : String) :
    Option (List (String × String)) × ResolverEnv :=
  match jget env.cache slug with
  | some m => (some m, env)
  | none =>
    let fromStorage := jget env.storage slug
    let tier3 : Option (List (String × String)) × ResolverEnv :=
      match recomputeLevels env lib slug with
      | none => (none, env)
      | some m =>
        if m.isEmpty then (none, env)
        else (some m, { env with cache := jset env.cache slug m
                                 storage := jset env.storage slug m })
    match fromStorage with
    | some stored =>
      if stored.isEmpty then tier3
      else (some stored, { env with cache := jset env.cache slug stored })
    | none => tier3

/-! ### Aggregation (`getAggregatedStats`)

`loadAllSessions` supplies the list of persisted sessions; the
aggregation below is the fold of `getAggregatedStats` over that list. -/

/-- The key `` `${level.id}_${session.skill}` `` of the best-run map. -/
def aggKey (id : String) (sk : SkillLevel) : String :=
  id ++ "_" ++ skillToString sk

/-- `getAggregatedStats` (`useLevelNames.ts`, stats document): the best
run per (level id, skill) pair — most kills, ties broken by fewer
ticks — over the loaded sessions, keyed by `` `${id}_${skill}` ``.  The
stored value spreads the level together with the session's skill. -/
def getAggregatedStats (sessions : List PlaySession) :
    List (String × (LevelPlayStats × SkillLevel)) :=
  sessions.foldl (fun m sess =>
    sess.levels.foldl (fun m l =>
      let key := aggKey l.id sess.skill
      match jget m key with
      | none => jset m key (l, sess.skill)
      | some e =>
        if l.kills > e.1.kills || (l.kills == e.1.kills && l.timeTics < e.1.timeTics) then
          jset m key (l, sess.skill)
        else m) m) []

/-- The (level, skill) pairs a fold over the sessions visits, in
visiting order. -/
def sessionPairs (sessions : List PlaySession) : List (LevelPlayStats × SkillLevel) :=
  sessions.foldl (fun acc sess => acc ++ sess.levels.map (fun l => (l, sess.skill))) []

/-- The candidate entries for one (level id, skill) pair. -/
def pairCandidates (sessions : List PlaySession) (id : String) (sk : SkillLevel) :
    List (LevelPlayStats × SkillLevel) :=
  (sessionPairs sessions).filter (fun p => p.1.id == id && p.2 == sk)

/-- One comparison step of the aggregation, on a (level, skill) pair:
keep the run with most kills, ties broken by fewer ticks. -/
def aggStep (m : List (String × (LevelPlayStats × SkillLevel)))
    (p : LevelPlayStats × SkillLevel) :
    List (String × (LevelPlayStats × SkillLevel)) :=
  let key := aggKey p.1.id p.2
  match jget m key with
  | none => jset m key p
  | some e =>
    if p.1.kills > e.1.kills || (p.1.kills == e.1.kills && p.1.timeTics < e.1.timeTics) then
      jset m key p
    else m

/-- A lowercase hexadecimal digit. -/
def isLowerHex (c : Char) : Bool :=
  ('0' ≤ c && c ≤ '9') || ('a' ≤ c && c ≤ 'f')

/-- The fingerprint of the session a save file parses to, if it parses. -/
def saveHash (savesDir : String) (s : SaveArchive) : Option String :=
  (parseSaveForStats (savesDir ++ "/" ++ s.name) s.name s).map generateSessionHash

/-- The last value assigned to a key by a sequence of `Map.set` events
(`none` when the key is never assigned). -/
def lastAssign (evts : List (String × String)) (k : String) : Option String :=
  evts.foldl (fun acc kv => if kv.1 = k then some kv.2 else acc) none

/-! ### Concrete instances evaluated in witnesses -/

/-- A raw per-level stats record, as found in a save's `globals.json`. -/
def rawLevelA : RawLevel :=
  { levelname := some ("MAP01"), killcount := some 5, totalkills := some 10,
    itemcount := some 1, totalitems := some 2, secretcount := some 0,
    totalsecrets := some 1, leveltime := some 100 }

/-- Like `rawLevelA` with one more kill, so its session hash differs. -/
def rawLevelB : RawLevel :=
  { rawLevelA with killcount := some 6 }

/-- A concrete save archive. -/
def saveA : SaveArchive :=
  { name := "a.zds", mtime := "2024-01-01T00:00:00.000Z",
    globals := some { statsLevels := some [rawLevelA], skill := some (.num 2),
                      startlevel := some ("MAP01") },
    infoComment := none }

/-- A concrete save archive whose stats differ from `saveA`. -/
def saveB : SaveArchive :=
  { name := "b.zds", mtime := "2024-01-02T00:00:00.000Z",
    globals := some { statsLevels := some [rawLevelB], skill := some (.num 2),
                      startlevel := some ("MAP01") },
    infoComment := none }

/-- A write oracle under which persisting `saveA`'s session file fails
(`"e8a20501"` is that session's fingerprint) and every other write
succeeds. -/
def wOkC : String → Bool :=
  fun p => p != "L/stats/w/e8a20501.json"

/-- One parsed candidate session. -/
def sessA : SessionCore :=
  { schemaVersion := 1, wadSlug := "sigil", startLevel := "E1M1", skill := .UV,
    sourceFile := "auto00.zds",
    levels := [{ id := "E1M1", name := "E1M1", kills := 10, totalKills := 20,
                 items := 3, totalItems := 7, secrets := 1, totalSecrets := 2,
                 timeTics := 5000 }] }

/-- The same gameplay state as `sessA`, re-saved: a different source
file and a backfilled display name, identical stat fields. -/
def sessB : SessionCore :=
  { schemaVersion := 1, wadSlug := "sigil", startLevel := "E1M1", skill := .UV,
    sourceFile := "save01.zds",
    levels := [{ id := "E1M1", name := "Hangar", kills := 10, totalKills := 20,
                 items := 3, totalItems := 7, secrets := 1, totalSecrets := 2,
                 timeTics := 5000 }] }

/-- A save archive whose skill field is the out-of-range number 7. -/
def save7 : SaveArchive :=
  { name := "s.zds", mtime := "t",
    globals := some { statsLevels := some [rawLevelA], skill := some (.num 7),
                      startlevel := some ("map01") },
    infoComment := none }

/-- The session `save7` parses to: its skill silently defaults to HMP. -/
def sess7 : SessionCore :=
  { schemaVersion := 1, wadSlug := "w", startLevel := "MAP01", skill := .HMP,
    sourceFile := "s.zds",
    levels := [{ id := "MAP01", name := "MAP01", kills := 5, totalKills := 10,
                 items := 1, totalItems := 2, secrets := 0, totalSecrets := 1,
                 timeTics := 100 }] }

/-- A tiny well-formed level-container: magic IWAD, one lump, directory
at offset 12, one MAPINFO lump of 13 bytes (`map MAP01 "X"`) at offset
28, total length 41. -/
def wadEx : List Nat :=
  [73, 87, 65, 68, 1, 0, 0, 0, 12, 0, 0, 0,
   28, 0, 0, 0, 13, 0, 0, 0, 77, 65, 80, 73, 78, 70, 79, 0,
   109, 97, 112, 32, 77, 65, 80, 48, 49, 32, 34, 88, 34]

/-- A concrete resolver environment: empty cache and storage, one
ledger entry pointing at a bare `.wad` file whose bytes are `wadEx`. -/
def envC5 : ResolverEnv :=
  { cache := [], storage := [],
    downloads := [("w", "file.wad")],
    readFile := fun p => if p = "LIB/file.wad" then .ok wadEx else .error (),
    unzip := fun _ => .error () }

/-- Concrete sessions for the aggregation claim: two runs of MAP01 on
HMP, 10 kills in 5000 tics versus 15 kills in 9000 tics. -/
def levelC4a : LevelPlayStats :=
  { id := "MAP01", name := "Entryway", kills := 10, totalKills := 20,
    items := 0, totalItems := 0, secrets := 0, totalSecrets := 0, timeTics := 5000 }

def levelC4b : LevelPlayStats :=
  { id := "MAP01", name := "Entryway", kills := 15, totalKills := 20,
    items := 0, totalItems := 0, secrets := 0, totalSecrets := 0, timeTics := 9000 }

def sessionsC4 : List PlaySession :=
  [ { schemaVersion := 1, wadSlug := "doom2", startLevel := "MAP01",
      skill := SkillLevel.HMP, sourceFile := "a.zds", levels := [levelC4a],
      capturedAt := "t1" },
    { schemaVersion := 1, wadSlug := "doom2", startLevel := "MAP01",
      skill := SkillLevel.HMP, sourceFile := "b.zds", levels := [levelC4b],
      capturedAt := "t2" } ]

/-! ## Lemmas about the JS `Map` model -/

theorem jget_nil {α : Type} (k : String) : jget ([] : List (String × α)) k = none := rfl

theorem jget_cons {α : Type} (p : String × α) (t : List (String × α)) (k : String) :
    jget (p :: t) k = if p.1 = k then some p.2 else jget t k := rfl

theorem jhas_cons {α : Type} (p : String × α) (t : List (String × α)) (k : String) :
    jhas (p :: t) k = (p.1 == k || jhas t k) := by
  by_cases h : p.1 = k <;> simp [jhas, jget_cons, h]

theorem jget_jset {α : Type} (m : List (String × α)) (k : String) (v : α) (k' : String) :
    jget (jset m k v) k' = if k' = k then some v else jget m k' := by
  induction m with
  | nil =>
    show jget [(k, v)] k' = if k' = k then some v else none
    rw [jget_cons]
    by_cases h : k' = k
    · rw [if_pos h.symm, if_pos h]
    · rw [if_neg (fun hh => h hh.symm), if_neg h]
      rfl
  | cons p t ih =>
    by_cases hp : p.1 = k
    · rw [jset, if_pos hp, jget_cons, jget_cons]
      by_cases hk : k' = k
      · rw [if_pos hk.symm, if_pos hk]
      · have h2 : ¬p.1 = k' := fun hh => hk (hp ▸ hh).symm
        rw [if_neg (fun hh => hk hh.symm), if_neg hk, if_neg h2]
    · rw [jset, if_neg hp, jget_cons, jget_cons, ih]
      by_cases hpk : p.1 = k'
      · have hk : ¬k' = k := fun hh => hp (hpk.trans hh)
        rw [if_pos hpk, if_neg hk, if_pos hpk]
      · rw [if_neg hpk]
        by_cases hk : k' = k
        · rw [if_pos hk, if_pos hk]
        · rw [if_neg hk, if_neg hk, if_neg hpk]

theorem jhas_jset {α : Type} (m : List (String × α)) (k : String) (v : α) (k' : String) :
    jhas (jset m k v) k' = (k' == k || jhas m k') := by
  unfold jhas
  rw [jget_jset]
  by_cases hk : k' = k <;> simp [hk]

theorem jhas_jset_iff {α : Type} (m : List (String × α)) (k : String) (v : α) (k' : String) :
    jhas (jset m k v) k' = true ↔ (k' = k ∨ jhas m k' = true) := by
  rw [jhas_jset]
  by_cases h : k' = k <;> simp [h]

theorem jset_length_new {α : Type} (m : List (String × α)) (k : String) (v : α)
    (h : jhas m k = false) : (jset m k v).length = m.length + 1 := by
  induction m with
  | nil => rfl
  | cons p t ih =>
    rw [jhas_cons] at h
    simp only [Bool.or_eq_false_iff] at h
    rw [jset, if_neg (by simpa using h.1)]
    simp [ih h.2]

theorem foldl_setEvent_acc (k : String) (t : List (String × String)) (acc : Option String) :
    t.foldl (fun a kv => if kv.1 = k then some kv.2 else a) acc =
      match t.foldl (fun a kv => if kv.1 = k then some kv.2 else a) (none : Option String) with
      | some v => some v
      | none => acc := by
  induction t generalizing acc with
  | nil => rfl
  | cons e t ih =>
    simp only [List.foldl_cons]
    rw [ih (if e.1 = k then some e.2 else acc), ih (if e.1 = k then some e.2 else none)]
    by_cases h : e.1 = k
    · cases hl : t.foldl (fun a kv => if kv.1 = k then some kv.2 else a) (none : Option String) <;>
        simp [h, hl]
    · cases hl : t.foldl (fun a kv => if kv.1 = k then some kv.2 else a) (none : Option String) <;>
        simp [h, hl]

theorem lastAssign_cons (e : String × String) (t : List (String × String)) (k : String) :
    lastAssign (e :: t) k =
      match lastAssign t k with
      | some v => some v
      | none => if e.1 = k then some e.2 else none := by
  unfold lastAssign
  simp only [List.foldl_cons]
  rw [foldl_setEvent_acc]

theorem jget_foldl_jset (evts : List (String × String)) (m : List (String × String))
    (k : String) :
    jget (evts.foldl (fun m kv => jset m kv.1 kv.2) m) k =
      match lastAssign evts k with
      | some v => some v
      | none => jget m k := by
  induction evts generalizing m with
  | nil => rfl
  | cons e t ih =>
    simp only [List.foldl_cons]
    rw [ih, lastAssign_cons]
    by_cases he : e.1 = k
    · cases hl : lastAssign t k <;> simp [he, jget_jset, hl]
    · have hne : ¬k = e.1 := fun h => he h.symm
      cases hl : lastAssign t k <;> simp [he, hne, jget_jset, hl]

/-! ## Lemmas about the fingerprint string -/

theorem djb2_foldl_lt (l : List Char) (h : Nat) (hh : h < 4294967296) :
    l.foldl djb2Step h < 4294967296 := by
  induction l generalizing h with
  | nil => exact hh
  | cons c t ih =>
    exact ih _ (Nat.mod_lt _ (by omega))

theorem djb2_lt (s : String) : djb2 s < 4294967296 := by
  unfold djb2
  exact djb2_foldl_lt _ _ (by omega)

theorem hexDigitsAux_length_le (k : Nat) :
    ∀ n : Nat, n < 16 ^ k → 1 ≤ k → (hexDigitsAux k n).length ≤ k := by
  induction k with
  | zero =>
    intro n _ hk
    omega
  | succ k ih =>
    intro n hn _
    rw [hexDigitsAux]
    by_cases h : n < 16
    · simp [h]
    · rw [if_neg h]
      have hdiv : n / 16 < 16 ^ k := by
        rw [Nat.div_lt_iff_lt_mul (by omega)]
        calc n < 16 ^ (k + 1) := hn
          _ = 16 ^ k * 16 := by ring
      have hk1 : 1 ≤ k := by
        rcases Nat.eq_zero_or_pos k with h0 | h1
        · subst h0
          have h16 : (16 : Nat) ^ (0 + 1) = 16 := by norm_num
          rw [h16] at hn
          omega
        · exact h1
      have := ih (n / 16) hdiv hk1
      simp only [List.length_append, List.length_cons, List.length_nil]
      omega

theorem hexDigits_length_le (n : Nat) (hn : n < 4294967296) : (hexDigits n).length ≤ 8 := by
  apply hexDigitsAux_length_le 8 n _ (by omega)
  norm_num
  omega

theorem hexDigitsAux_ne_nil (fuel n : Nat) : 1 ≤ (hexDigitsAux fuel n).length := by
  cases fuel with
  | zero => simp [hexDigitsAux]
  | succ k =>
    rw [hexDigitsAux]
    by_cases h : n < 16
    · simp [h]
    · rw [if_neg h]
      simp

theorem digitChar_hex (d : Nat) (hd : d < 16) : isLowerHex (Nat.digitChar d) = true := by
  interval_cases d <;> decide

theorem hexDigitsAux_all_hex (k : Nat) :
    ∀ n : Nat, n < 16 ^ k → ∀ c ∈ hexDigitsAux k n, isLowerHex c = true := by
  induction k with
  | zero =>
    intro n hn c hc
    have hz : n = 0 := by
      have : (16 : Nat) ^ 0 = 1 := by norm_num
      omega
    subst hz
    simp only [hexDigitsAux, List.mem_singleton] at hc
    exact hc ▸ digitChar_hex 0 (by omega)
  | succ k ih =>
    intro n hn c hc
    rw [hexDigitsAux] at hc
    by_cases h : n < 16
    · rw [if_pos h] at hc
      simp only [List.mem_singleton] at hc
      exact hc ▸ digitChar_hex n h
    · rw [if_neg h] at hc
      have hdiv : n / 16 < 16 ^ k := by
        rw [Nat.div_lt_iff_lt_mul (by omega)]
        calc n < 16 ^ (k + 1) := hn
          _ = 16 ^ k * 16 := by ring
      rcases List.mem_append.mp hc with h1 | h2
      · exact ih (n / 16) hdiv c h1
      · simp only [List.mem_singleton] at h2
        exact h2 ▸ digitChar_hex _ (Nat.mod_lt _ (by omega))

theorem hexDigits_all_hex (n : Nat) (hn : n < 4294967296) :
    ∀ c ∈ hexDigits n, isLowerHex c = true := by
  apply hexDigitsAux_all_hex 8 n
  norm_num
  omega

theorem hash8_shape (n : Nat) (hn : n < 4294967296) :
    (padStart8 (hexStr n)).length = 8 ∧
      ∀ c ∈ (padStart8 (hexStr n)).data, isLowerHex c = true := by
  have hlen : (hexStr n).length ≤ 8 := by
    simpa [hexStr] using hexDigits_length_le n hn
  have hpos : 1 ≤ (hexStr n).length := by
    simpa [hexStr, hexDigits] using hexDigitsAux_ne_nil 8 n
  constructor
  · unfold padStart8
    by_cases h : (hexStr n).length < 8
    · rw [if_pos h, String.length_append]
      simp only [String.length]
      simp [String.mk]
      omega
    · rw [if_neg h]
      omega
  · intro c hc
    unfold padStart8 at hc
    by_cases h : (hexStr n).length < 8
    · rw [if_pos h, String.data_append] at hc
      rcases List.mem_append.mp hc with h1 | h2
      · simp only [String.mk] at h1
        have := List.eq_of_mem_replicate h1
        subst this
        decide
      · exact hexDigits_all_hex n hn c (by simpa [hexStr] using h2)
    · rw [if_neg h] at hc
      exact hexDigits_all_hex n hn c (by simpa [hexStr] using hc)

/-- The fingerprint only reads the slug, skill, start level and the
stats projection of each level. -/
theorem hash_congr (s1 s2 : SessionCore)
    (hw : s1.wadSlug = s2.wadSlug) (hk : s1.skill = s2.skill)
    (hs : s1.startLevel = s2.startLevel)
    (hl : s1.levels.map statsProj = s2.levels.map statsProj) :
    generateSessionHash s1 = generateSessionHash s2 := by
  unfold generateSessionHash payloadString
  rw [hw, hk, hs]
  have : s1.levels.map levelPayload = s2.levels.map levelPayload := by
    have e1 : s1.levels.map levelPayload = (s1.levels.map statsProj).map levelPayloadT := by
      rw [List.map_map]; rfl
    have e2 : s2.levels.map levelPayload = (s2.levels.map statsProj).map levelPayloadT := by
      rw [List.map_map]; rfl
    rw [e1, e2, hl]
  rw [this]

/-- Backfilling display names does not change the fingerprint. -/
theorem hash_applyNames (ln : List (String × String)) (s : SessionCore) :
    generateSessionHash { s with levels := s.levels.map (applyNames ln) } =
      generateSessionHash s := by
  apply hash_congr <;> try rfl
  show (s.levels.map (applyNames ln)).map statsProj = s.levels.map statsProj
  rw [List.map_map]
  apply List.map_congr_left
  intro l _
  show statsProj (applyNames ln l) = statsProj l
  unfold applyNames
  by_cases h : (l.name == l.id && jhas ln l.id) = true
  · rw [if_pos h]
    rfl
  · rw [if_neg h]

/-! ## Lemmas about the name-merge fold inside `captureStats` -/

theorem mergeFold_upd_mono (levels : List LevelPlayStats)
    (p : List (String × String) × Bool) (h : p.2 = true) :
    (levels.foldl mergeStep p).2 = true := by
  induction levels generalizing p with
  | nil => exact h
  | cons l t ih =>
    simp only [List.foldl_cons]
    unfold mergeStep
    by_cases hc : (l.name != l.id && !jhas p.1 l.id) = true
    · rw [if_pos hc]
      exact ih _ rfl
    · rw [if_neg hc]
      exact ih _ h

theorem mergeFold_has_mono (levels : List LevelPlayStats)
    (p : List (String × String) × Bool) (k : String) (h : jhas p.1 k = true) :
    jhas (levels.foldl mergeStep p).1 k = true := by
  induction levels generalizing p with
  | nil => exact h
  | cons l t ih =>
    simp only [List.foldl_cons]
    unfold mergeStep
    by_cases hc : (l.name != l.id && !jhas p.1 l.id) = true
    · rw [if_pos hc]
      exact ih _ (by rw [jhas_jset]; simp [h])
    · rw [if_neg hc]
      exact ih _ h

theorem mergeFold_establishes (levels : List LevelPlayStats)
    (p : List (String × String) × Bool) :
    ∀ l ∈ levels, l.name ≠ l.id → jhas (levels.foldl mergeStep p).1 l.id = true := by
  induction levels generalizing p with
  | nil => intro l hl; exact absurd hl (List.not_mem_nil l)
  | cons l0 t ih =>
    intro l hl hne
    simp only [List.foldl_cons]
    rcases List.mem_cons.mp hl with h0 | hmem
    · subst h0
      by_cases hhas : jhas p.1 l.id = true
      · exact mergeFold_has_mono t _ _ (by
          unfold mergeStep
          by_cases hc : (l.name != l.id && !jhas p.1 l.id) = true
          · rw [if_pos hc, jhas_jset]; simp [hhas]
          · rw [if_neg hc]; exact hhas)
      · have hc : (l.name != l.id && !jhas p.1 l.id) = true := by
          simp only [Bool.and_eq_true, bne_iff_ne, Bool.not_eq_true']
          exact ⟨hne, by simpa using hhas⟩
        unfold mergeStep
        rw [if_pos hc]
        exact mergeFold_has_mono t _ _ (by rw [jhas_jset]; simp)
    · exact ih _ l hmem hne

theorem mergeFold_id (levels : List LevelPlayStats)
    (p : List (String × String) × Bool)
    (h : ∀ l ∈ levels, l.name = l.id ∨ jhas p.1 l.id = true) :
    levels.foldl mergeStep p = p := by
  induction levels with
  | nil => rfl
  | cons l t ih =>
    simp only [List.foldl_cons]
    have hc : ¬(l.name != l.id && !jhas p.1 l.id) = true := by
      rcases h l (List.mem_cons_self l t) with h1 | h2
      · simp [h1]
      · simp [h2]
    unfold mergeStep
    rw [if_neg hc]
    exact ih (fun l' hl' => h l' (List.mem_cons_of_mem _ hl'))

theorem mergeFold_upd_false (levels : List LevelPlayStats)
    (p : List (String × String) × Bool)
    (h : (levels.foldl mergeStep p).2 = false) :
    levels.foldl mergeStep p = p ∧ p.2 = false := by
  induction levels generalizing p with
  | nil => exact ⟨rfl, h⟩
  | cons l t ih =>
    simp only [List.foldl_cons] at h ⊢
    by_cases hc : (l.name != l.id && !jhas p.1 l.id) = true
    · exfalso
      have : (t.foldl mergeStep (mergeStep p l)).2 = true := by
        apply mergeFold_upd_mono
        unfold mergeStep
        rw [if_pos hc]
      rw [h] at this
      exact Bool.false_ne_true this
    · have hstep : mergeStep p l = p := by
        unfold mergeStep
        rw [if_neg hc]
      rw [hstep] at h ⊢
      exact ih p h

/-! ## Lemmas about one step of the capture loop -/

theorem captureStep_parse_none (w : String → Bool) (sd td : String) (acc : CaptureAcc)
    (s : SaveArchive)
    (hp : parseSaveForStats (sd ++ "/" ++ s.name) s.name s = none) :
    captureStep w sd td acc s = acc := by
  unfold captureStep
  rw [hp]

theorem captureStep_ln (w : String → Bool) (sd td : String) (acc : CaptureAcc)
    (s : SaveArchive) (sess : SessionCore)
    (hp : parseSaveForStats (sd ++ "/" ++ s.name) s.name s = some sess) :
    (captureStep w sd td acc s).ln = (sess.levels.foldl mergeStep (acc.ln, acc.upd)).1 ∧
    (captureStep w sd td acc s).upd = (sess.levels.foldl mergeStep (acc.ln, acc.upd)).2 := by
  simp only [captureStep, hp]
  constructor <;> (split_ifs <;> rfl)

theorem captureStep_skip (w : String → Bool) (sd td : String) (acc : CaptureAcc)
    (s : SaveArchive) (sess : SessionCore)
    (hp : parseSaveForStats (sd ++ "/" ++ s.name) s.name s = some sess)
    (hh : jhas acc.files (generateSessionHash sess ++ ".json") = true) :
    (captureStep w sd td acc s).files = acc.files ∧
    (captureStep w sd td acc s).count = acc.count := by
  simp only [captureStep, hp, hash_applyNames]
  rw [if_pos hh]
  exact ⟨rfl, rfl⟩

theorem captureStep_write (w : String → Bool) (sd td : String) (acc : CaptureAcc)
    (s : SaveArchive) (sess : SessionCore)
    (hp : parseSaveForStats (sd ++ "/" ++ s.name) s.name s = some sess)
    (hh : jhas acc.files (generateSessionHash sess ++ ".json") = false)
    (hw : w (td ++ "/" ++ (generateSessionHash sess ++ ".json")) = true) :
    jhas (captureStep w sd td acc s).files (generateSessionHash sess ++ ".json") = true ∧
    (captureStep w sd td acc s).count = acc.count + 1 := by
  simp only [captureStep, hp, hash_applyNames]
  rw [if_neg (by simp [hh]), if_pos hw]
  refine ⟨?_, rfl⟩
  rw [jhas_jset]
  simp

theorem captureStep_prov (w : String → Bool) (sd td : String) (acc : CaptureAcc)
    (s : SaveArchive) :
    ((captureStep w sd td acc s).files = acc.files ∧
     (captureStep w sd td acc s).count = acc.count) ∨
    (∃ sess full,
      parseSaveForStats (sd ++ "/" ++ s.name) s.name s = some sess ∧
      jhas acc.files (generateSessionHash sess ++ ".json") = false ∧
      w (td ++ "/" ++ (generateSessionHash sess ++ ".json")) = true ∧
      (captureStep w sd td acc s).files =
        jset acc.files (generateSessionHash sess ++ ".json") full ∧
      (captureStep w sd td acc s).count = acc.count + 1) := by
  cases hp : parseSaveForStats (sd ++ "/" ++ s.name) s.name s with
  | none =>
    left
    rw [captureStep_parse_none w sd td acc s hp]
    exact ⟨rfl, rfl⟩
  | some sess =>
    by_cases hh : jhas acc.files (generateSessionHash sess ++ ".json") = true
    · left
      exact captureStep_skip w sd td acc s sess hp hh
    · have hh' : jhas acc.files (generateSessionHash sess ++ ".json") = false := by
        simpa using hh
      by_cases hw : w (td ++ "/" ++ (generateSessionHash sess ++ ".json")) = true
      · have key : ∃ full : PlaySession,
            (captureStep w sd td acc s).files =
              jset acc.files (generateSessionHash sess ++ ".json") full ∧
            (captureStep w sd td acc s).count = acc.count + 1 := by
          simp only [captureStep, hp, hash_applyNames]
          rw [if_neg (by simp [hh']), if_pos hw]
          exact ⟨_, rfl, rfl⟩
        obtain ⟨full, k1, k2⟩ := key
        exact Or.inr ⟨sess, full, rfl, hh', hw, k1, k2⟩
      · left
        simp only [captureStep, hp, hash_applyNames]
        rw [if_neg (by simp [hh']), if_neg hw]
        exact ⟨rfl, rfl⟩

theorem captureStep_files_mono (w : String → Bool) (sd td : String) (acc : CaptureAcc)
    (s : SaveArchive) (k : String) (h : jhas acc.files k = true) :
    jhas (captureStep w sd td acc s).files k = true := by
  rcases captureStep_prov w sd td acc s with ⟨hf, _⟩ | ⟨sess, full, _, _, _, hf, _⟩
  · rw [hf]; exact h
  · rw [hf, jhas_jset]; simp [h]

theorem captureStep_ln_mono (w : String → Bool) (sd td : String) (acc : CaptureAcc)
    (s : SaveArchive) (k : String) (h : jhas acc.ln k = true) :
    jhas (captureStep w sd td acc s).ln k = true := by
  cases hp : parseSaveForStats (sd ++ "/" ++ s.name) s.name s with
  | none => rw [captureStep_parse_none w sd td acc s hp]; exact h
  | some sess =>
    rw [(captureStep_ln w sd td acc s sess hp).1]
    exact mergeFold_has_mono _ _ _ h

theorem captureStep_id (w : String → Bool) (sd td : String) (acc : CaptureAcc)
    (s : SaveArchive)
    (hfiles : ∀ sess, parseSaveForStats (sd ++ "/" ++ s.name) s.name s = some sess →
      jhas acc.files (generateSessionHash sess ++ ".json") = true)
    (hnames : ∀ sess, parseSaveForStats (sd ++ "/" ++ s.name) s.name s = some sess →
      ∀ l ∈ sess.levels, l.name ≠ l.id → jhas acc.ln l.id = true) :
    captureStep w sd td acc s = acc := by
  cases hp : parseSaveForStats (sd ++ "/" ++ s.name) s.name s with
  | none => exact captureStep_parse_none w sd td acc s hp
  | some sess =>
    have hm : sess.levels.foldl mergeStep (acc.ln, acc.upd) = (acc.ln, acc.upd) := by
      apply mergeFold_id
      intro l hl
      by_cases he : l.name = l.id
      · exact Or.inl he
      · exact Or.inr (hnames sess hp l hl he)
    simp only [captureStep, hp, hash_applyNames, hm]
    rw [if_pos (hfiles sess hp)]

/-! ## Lemmas about the whole capture loop -/

theorem captureFold_files_mono (w : String → Bool) (sd td : String)
    (saves : List SaveArchive) (acc : CaptureAcc) (k : String)
    (h : jhas acc.files k = true) :
    jhas (saves.foldl (captureStep w sd td) acc).files k = true := by
  induction saves generalizing acc with
  | nil => exact h
  | cons s t ih =>
    simp only [List.foldl_cons]
    exact ih _ (captureStep_files_mono w sd td acc s k h)

theorem captureFold_ln_mono (w : String → Bool) (sd td : String)
    (saves : List SaveArchive) (acc : CaptureAcc) (k : String)
    (h : jhas acc.ln k = true) :
    jhas (saves.foldl (captureStep w sd td) acc).ln k = true := by
  induction saves generalizing acc with
  | nil => exact h
  | cons s t ih =>
    simp only [List.foldl_cons]
    exact ih _ (captureStep_ln_mono w sd td acc s k h)

theorem captureFold_hash_present (sd td : String)
    (saves : List SaveArchive) (acc : CaptureAcc) :
    ∀ s ∈ saves, ∀ sess, parseSaveForStats (sd ++ "/" ++ s.name) s.name s = some sess →
      jhas (saves.foldl (captureStep (fun _ => true) sd td) acc).files
        (generateSessionHash sess ++ ".json") = true := by
  induction saves generalizing acc with
  | nil => intro s hs; exact absurd hs (List.not_mem_nil s)
  | cons s0 t ih =>
    intro s hs sess hp
    simp only [List.foldl_cons]
    rcases List.mem_cons.mp hs with h0 | hmem
    · subst h0
      apply captureFold_files_mono
      by_cases hh : jhas acc.files (generateSessionHash sess ++ ".json") = true
      · rw [(captureStep_skip _ sd td acc s sess hp hh).1]
        exact hh
      · exact (captureStep_write _ sd td acc s sess hp (by simpa using hh) rfl).1
    · exact ih _ s hmem sess hp

theorem captureFold_names_present (w : String → Bool) (sd td : String)
    (saves : List SaveArchive) (acc : CaptureAcc) :
    ∀ s ∈ saves, ∀ sess, parseSaveForStats (sd ++ "/" ++ s.name) s.name s = some sess →
      ∀ l ∈ sess.levels, l.name ≠ l.id →
        jhas (saves.foldl (captureStep w sd td) acc).ln l.id = true := by
  induction saves generalizing acc with
  | nil => intro s hs; exact absurd hs (List.not_mem_nil s)
  | cons s0 t ih =>
    intro s hs sess hp l hl hne
    simp only [List.foldl_cons]
    rcases List.mem_cons.mp hs with h0 | hmem
    · subst h0
      apply captureFold_ln_mono
      rw [(captureStep_ln w sd td acc s sess hp).1]
      exact mergeFold_establishes sess.levels _ l hl hne
    · exact ih _ s hmem sess hp l hl hne

theorem captureFold_id (w : String → Bool) (sd td : String)
    (saves : List SaveArchive) (acc : CaptureAcc)
    (h : ∀ s ∈ saves, ∀ sess,
      parseSaveForStats (sd ++ "/" ++ s.name) s.name s = some sess →
      jhas acc.files (generateSessionHash sess ++ ".json") = true ∧
      ∀ l ∈ sess.levels, l.name ≠ l.id → jhas acc.ln l.id = true) :
    saves.foldl (captureStep w sd td) acc = acc := by
  induction saves with
  | nil => rfl
  | cons s t ih =>
    simp only [List.foldl_cons]
    have hstep : captureStep w sd td acc s = acc := by
      apply captureStep_id
      · intro sess hp
        exact (h s (List.mem_cons_self s t) sess hp).1
      · intro sess hp
        exact (h s (List.mem_cons_self s t) sess hp).2
    rw [hstep]
    exact ih (fun s' hs' => h s' (List.mem_cons_of_mem _ hs'))

theorem captureStep_upd_mono (w : String → Bool) (sd td : String) (acc : CaptureAcc)
    (s : SaveArchive) (h : acc.upd = true) :
    (captureStep w sd td acc s).upd = true := by
  cases hp : parseSaveForStats (sd ++ "/" ++ s.name) s.name s with
  | none => rw [captureStep_parse_none w sd td acc s hp]; exact h
  | some sess =>
    rw [(captureStep_ln w sd td acc s sess hp).2]
    exact mergeFold_upd_mono _ _ (by rw [h])

theorem captureStep_upd_false (w : String → Bool) (sd td : String) (acc : CaptureAcc)
    (s : SaveArchive) (h : (captureStep w sd td acc s).upd = false) :
    (captureStep w sd td acc s).ln = acc.ln ∧ acc.upd = false := by
  cases hp : parseSaveForStats (sd ++ "/" ++ s.name) s.name s with
  | none => rw [captureStep_parse_none w sd td acc s hp] at h ⊢; exact ⟨rfl, h⟩
  | some sess =>
    obtain ⟨hln, hupd⟩ := captureStep_ln w sd td acc s sess hp
    rw [hupd] at h
    obtain ⟨hfix, hfalse⟩ := mergeFold_upd_false sess.levels (acc.ln, acc.upd) h
    rw [hln, hfix]
    exact ⟨rfl, hfalse⟩

theorem captureFold_upd_false (w : String → Bool) (sd td : String)
    (saves : List SaveArchive) (acc : CaptureAcc)
    (h : (saves.foldl (captureStep w sd td) acc).upd = false) :
    (saves.foldl (captureStep w sd td) acc).ln = acc.ln ∧ acc.upd = false := by
  induction saves generalizing acc with
  | nil => exact ⟨rfl, h⟩
  | cons s t ih =>
    simp only [List.foldl_cons] at h ⊢
    obtain ⟨h1, h2⟩ := ih _ h
    obtain ⟨h3, h4⟩ := captureStep_upd_false w sd td acc s h2
    exact ⟨h1.trans h3, h4⟩

theorem captureFold_prov (w : String → Bool) (sd td : String)
    (saves : List SaveArchive) (acc : CaptureAcc) :
    acc.count ≤ (saves.foldl (captureStep w sd td) acc).count ∧
    (saves.foldl (captureStep w sd td) acc).files.length + acc.count =
      acc.files.length + (saves.foldl (captureStep w sd td) acc).count ∧
    ∀ k, jhas (saves.foldl (captureStep w sd td) acc).files k = true →
      jhas acc.files k = true ∨
      (w (td ++ "/" ++ k) = true ∧ ∃ sess, k = generateSessionHash sess ++ ".json") := by
  induction saves generalizing acc with
  | nil => exact ⟨Nat.le_refl _, rfl, fun k hk => Or.inl hk⟩
  | cons s t ih =>
    simp only [List.foldl_cons]
    obtain ⟨ih1, ih2, ih3⟩ := ih (captureStep w sd td acc s)
    rcases captureStep_prov w sd td acc s with ⟨hf, hc⟩ | ⟨sess, full, _, hno, hw, hf, hc⟩
    · refine ⟨by omega, by rw [hf] at ih2; omega, ?_⟩
      intro k hk
      rcases ih3 k hk with h1 | h2
      · rw [hf] at h1; exact Or.inl h1
      · exact Or.inr h2
    · have hlen : (captureStep w sd td acc s).files.length = acc.files.length + 1 := by
        rw [hf]
        exact jset_length_new _ _ _ hno
      refine ⟨by omega, by omega, ?_⟩
      intro k hk
      rcases ih3 k hk with h1 | h2
      · rw [hf] at h1
        rcases (jhas_jset_iff _ _ _ _).mp h1 with hk1 | hk2
        · exact Or.inr ⟨by rwa [hk1], sess, hk1⟩
        · exact Or.inl hk2
      · exact Or.inr h2

theorem captureStats_false (w : String → Bool) (lib slug : String)
    (saves : List SaveArchive) (st : StatsState) :
    captureStats w lib slug false saves st = (st, 0) := rfl

theorem captureStats_true (w : String → Bool) (lib slug : String)
    (saves : List SaveArchive) (st : StatsState) :
    captureStats w lib slug true saves st =
      ((fun acc : CaptureAcc =>
        ({ levelNames :=
            if (acc.upd && w (lib ++ "/stats/" ++ slug ++ "/level-names.json"))
            then acc.ln else st.levelNames,
           statsFiles := acc.files }, acc.count))
       ((saves.filter (fun a => jsEndsWith a.name (".zds"))).foldl
          (captureStep w (lib ++ "/saves/" ++ slug) (lib ++ "/stats/" ++ slug))
          ⟨st.levelNames, false, st.statsFiles, 0⟩)) := rfl

/-! ## Lemmas about the aggregation fold -/

theorem string_data_inj (s t : String) (h : s.data = t.data) : s = t := by
  cases s
  cases t
  exact congrArg String.mk h

theorem firstOcc (c : Char) :
    ∀ (xs xs' ys ys' : List Char), c ∉ xs → c ∉ xs' →
      xs ++ c :: ys = xs' ++ c :: ys' → xs = xs' ∧ ys = ys' := by
  intro xs
  induction xs with
  | nil =>
    intro xs' ys ys' _ h2 heq
    cases xs' with
    | nil =>
      simp only [List.nil_append] at heq
      injection heq with _ h
      exact ⟨rfl, h⟩
    | cons x t' =>
      simp only [List.nil_append, List.cons_append] at heq
      injection heq with h1 _
      exact absurd (h1 ▸ List.mem_cons_self x t') h2
  | cons a t ih =>
    intro xs' ys ys' h1 h2 heq
    cases xs' with
    | nil =>
      simp only [List.nil_append, List.cons_append] at heq
      injection heq with ha _
      exact absurd (ha ▸ List.mem_cons_self a t) h1
    | cons x t' =>
      simp only [List.cons_append] at heq
      injection heq with ha hrest
      have := ih t' ys ys' (fun hm => h1 (List.mem_cons_of_mem _ hm))
        (fun hm => h2 (List.mem_cons_of_mem _ hm)) hrest
      exact ⟨by rw [ha, this.1], this.2⟩

theorem skillToString_no_underscore (sk : SkillLevel) : '_' ∉ (skillToString sk).data := by
  cases sk <;> decide

theorem skillToString_inj (s1 s2 : SkillLevel) (h : skillToString s1 = skillToString s2) :
    s1 = s2 := by
  cases s1 <;> cases s2 <;> first | rfl | (exact absurd h (by decide))

theorem aggKey_data (id : String) (sk : SkillLevel) :
    (aggKey id sk).data = id.data ++ '_' :: (skillToString sk).data := by
  unfold aggKey
  rw [String.data_append, String.data_append, List.append_assoc]
  rfl

theorem aggKey_inj (i1 i2 : String) (s1 s2 : SkillLevel)
    (h : aggKey i1 s1 = aggKey i2 s2) : i1 = i2 ∧ s1 = s2 := by
  have hd : i1.data ++ '_' :: (skillToString s1).data =
      i2.data ++ '_' :: (skillToString s2).data := by
    rw [← aggKey_data, ← aggKey_data, h]
  have hrev : (skillToString s1).data.reverse ++ '_' :: i1.data.reverse =
      (skillToString s2).data.reverse ++ '_' :: i2.data.reverse := by
    have := congrArg List.reverse hd
    simpa [List.reverse_append, List.append_assoc] using this
  have hocc := firstOcc '_' _ _ _ _
    (by simpa using skillToString_no_underscore s1)
    (by simpa using skillToString_no_underscore s2) hrev
  constructor
  · have : i1.data = i2.data := by
      have := congrArg List.reverse hocc.2
      simpa using this
    exact string_data_inj _ _ this
  · apply skillToString_inj
    apply string_data_inj
    have := congrArg List.reverse hocc.1
    simpa using this

theorem agg_inner_fold (sk : SkillLevel) (levels : List LevelPlayStats)
    (m : List (String × (LevelPlayStats × SkillLevel))) :
    levels.foldl (fun m l =>
      let key := aggKey l.id sk
      match jget m key with
      | none => jset m key (l, sk)
      | some e =>
        if l.kills > e.1.kills || (l.kills == e.1.kills && l.timeTics < e.1.timeTics) then
          jset m key (l, sk)
        else m) m =
    (levels.map (fun l => (l, sk))).foldl aggStep m := by
  induction levels generalizing m with
  | nil => rfl
  | cons l t ih =>
    simp only [List.foldl_cons, List.map_cons]
    rw [ih]
    rfl

theorem foldl_append_acc {α β : Type} (f : β → List α) :
    ∀ (l : List β) (acc : List α),
      l.foldl (fun a s => a ++ f s) acc = acc ++ l.foldl (fun a s => a ++ f s) [] := by
  intro l
  induction l with
  | nil => intro acc; simp
  | cons s t ih =>
    intro acc
    simp only [List.foldl_cons, List.nil_append]
    rw [ih (acc ++ f s), ih (f s), List.append_assoc]

theorem agg_eq_pairs_fold (sessions : List PlaySession) :
    getAggregatedStats sessions = (sessionPairs sessions).foldl aggStep [] := by
  suffices h : ∀ (ss : List PlaySession) (m : List (String × (LevelPlayStats × SkillLevel))),
      ss.foldl (fun m sess =>
        sess.levels.foldl (fun m l =>
          let key := aggKey l.id sess.skill
          match jget m key with
          | none => jset m key (l, sess.skill)
          | some e =>
            if l.kills > e.1.kills || (l.kills == e.1.kills && l.timeTics < e.1.timeTics) then
              jset m key (l, sess.skill)
            else m) m) m =
      (ss.foldl (fun acc sess => acc ++ sess.levels.map (fun l => (l, sess.skill))) []).foldl
        aggStep m by
    exact h sessions []
  intro ss
  induction ss with
  | nil => intro m; rfl
  | cons s t ih =>
    intro m
    simp only [List.foldl_cons, List.nil_append]
    rw [agg_inner_fold, ih, foldl_append_acc (fun sess => sess.levels.map (fun l => (l, sess.skill))) t (s.levels.map (fun l => (l, s.skill))), List.foldl_append]

theorem aggStep_none (m : List (String × (LevelPlayStats × SkillLevel)))
    (p : LevelPlayStats × SkillLevel)
    (hg : jget m (aggKey p.1.id p.2) = none) :
    aggStep m p = jset m (aggKey p.1.id p.2) p := by
  unfold aggStep
  simp only [hg]

theorem aggStep_some (m : List (String × (LevelPlayStats × SkillLevel)))
    (p e0 : LevelPlayStats × SkillLevel)
    (hg : jget m (aggKey p.1.id p.2) = some e0) :
    aggStep m p =
      if p.1.kills > e0.1.kills ||
          (p.1.kills == e0.1.kills && p.1.timeTics < e0.1.timeTics) then
        jset m (aggKey p.1.id p.2) p
      else m := by
  unfold aggStep
  simp only [hg]

theorem aggPairs_inv (L : List (LevelPlayStats × SkillLevel)) (k : String) :
    (jget (L.foldl aggStep []) k = none → ∀ p ∈ L, aggKey p.1.id p.2 ≠ k) ∧
    (∀ e, jget (L.foldl aggStep []) k = some e →
      aggKey e.1.id e.2 = k ∧ e ∈ L ∧
      ∀ p ∈ L, aggKey p.1.id p.2 = k →
        (p.1.kills < e.1.kills ∨ (p.1.kills = e.1.kills ∧ e.1.timeTics ≤ p.1.timeTics))) := by
  induction L using List.reverseRecOn with
  | nil =>
    constructor
    · intro _ p hp
      exact absurd hp (List.not_mem_nil p)
    · intro e he
      exact absurd he (by simp [jget])
  | append_singleton L p ih =>
    rw [List.foldl_append]
    simp only [List.foldl_cons, List.foldl_nil]
    cases hg : jget (L.foldl aggStep []) (aggKey p.1.id p.2) with
    | none =>
      rw [aggStep_none _ _ hg]
      constructor
      · intro hnone q hq
        rw [jget_jset] at hnone
        by_cases hk : k = aggKey p.1.id p.2
        · rw [if_pos hk] at hnone
          exact Option.noConfusion hnone
        · rw [if_neg hk] at hnone
          rcases List.mem_append.mp hq with h | h
          · exact (ih).1 hnone q h
          · simp only [List.mem_singleton] at h
            subst h
            exact fun hh => hk hh.symm
      · intro e he
        rw [jget_jset] at he
        by_cases hk : k = aggKey p.1.id p.2
        · rw [if_pos hk] at he
          injection he with he'
          subst he'
          refine ⟨hk.symm, List.mem_append.mpr (Or.inr (by simp)), ?_⟩
          intro q hq hqk
          rcases List.mem_append.mp hq with h | h
          · exact absurd hqk ((ih).1 (by rw [← hk] at hg; exact hg) q h)
          · simp only [List.mem_singleton] at h
            subst h
            exact Or.inr ⟨rfl, Nat.le_refl _⟩
        · rw [if_neg hk] at he
          obtain ⟨hke, heL, hbeats⟩ := (ih).2 e he
          refine ⟨hke, List.mem_append.mpr (Or.inl heL), ?_⟩
          intro q hq hqk
          rcases List.mem_append.mp hq with h | h
          · exact hbeats q h hqk
          · simp only [List.mem_singleton] at h
            subst h
            exact absurd hqk.symm hk
    | some e0 =>
      rw [aggStep_some _ _ e0 hg]
      have hcond' : (p.1.kills > e0.1.kills ||
          (p.1.kills == e0.1.kills && p.1.timeTics < e0.1.timeTics)) = true ↔
          (e0.1.kills < p.1.kills ∨ (p.1.kills = e0.1.kills ∧ p.1.timeTics < e0.1.timeTics)) := by
        simp only [Bool.or_eq_true, Bool.and_eq_true, decide_eq_true_eq, beq_iff_eq]
      by_cases hcond : (p.1.kills > e0.1.kills ||
          (p.1.kills == e0.1.kills && p.1.timeTics < e0.1.timeTics)) = true
      · rw [if_pos hcond]
        have hbetter := hcond'.mp hcond
        constructor
        · intro hnone q hq
          rw [jget_jset] at hnone
          by_cases hk : k = aggKey p.1.id p.2
          · rw [if_pos hk] at hnone
            exact Option.noConfusion hnone
          · rw [if_neg hk] at hnone
            rcases List.mem_append.mp hq with h | h
            · exact (ih).1 hnone q h
            · simp only [List.mem_singleton] at h
              subst h
              exact fun hh => hk hh.symm
        · intro e he
          rw [jget_jset] at he
          by_cases hk : k = aggKey p.1.id p.2
          · rw [if_pos hk] at he
            injection he with he'
            subst he'
            obtain ⟨hke0, he0L, hbeats0⟩ := (ih).2 e0 (by rw [← hk] at hg; exact hg)
            refine ⟨hk.symm, List.mem_append.mpr (Or.inr (by simp)), ?_⟩
            intro q hq hqk
            rcases List.mem_append.mp hq with h | h
            · have hq0 := hbeats0 q h hqk
              rcases hq0 with h1 | ⟨h2, h3⟩ <;> rcases hbetter with g1 | ⟨g2, g3⟩ <;>
                first
                | (exact Or.inl (by omega))
                | (refine Or.inr ⟨by omega, by omega⟩)
            · simp only [List.mem_singleton] at h
              subst h
              exact Or.inr ⟨rfl, Nat.le_refl _⟩
          · rw [if_neg hk] at he
            obtain ⟨hke, heL, hbeats⟩ := (ih).2 e he
            refine ⟨hke, List.mem_append.mpr (Or.inl heL), ?_⟩
            intro q hq hqk
            rcases List.mem_append.mp hq with h | h
            · exact hbeats q h hqk
            · simp only [List.mem_singleton] at h
              subst h
              exact absurd hqk.symm hk
      · rw [if_neg hcond]
        have hworse : ¬(e0.1.kills < p.1.kills ∨
            (p.1.kills = e0.1.kills ∧ p.1.timeTics < e0.1.timeTics)) := fun hh =>
          hcond (hcond'.mpr hh)
        constructor
        · intro hnone q hq
          rcases List.mem_append.mp hq with h | h
          · exact (ih).1 hnone q h
          · simp only [List.mem_singleton] at h
            subst h
            intro hh
            rw [hh] at hg
            rw [hg] at hnone
            exact Option.noConfusion hnone
        · intro e he
          obtain ⟨hke, heL, hbeats⟩ := (ih).2 e he
          refine ⟨hke, List.mem_append.mpr (Or.inl heL), ?_⟩
          intro q hq hqk
          rcases List.mem_append.mp hq with h | h
          · exact hbeats q h hqk
          · simp only [List.mem_singleton] at h
            subst h
            have he0e : e0 = e := by
              rw [hqk] at hg
              rw [hg] at he
              injection he
            subst he0e
            omega

/-! ## Lemmas about line splitting and the EMAPINFO grammar -/

theorem string_eta (s : String) : String.mk s.data = s := by
  cases s
  rfl

theorem dropWhile_head_false (p : Char → Bool) (l : List Char)
    (h : ∀ c, l.head? = some c → p c = false) : l.dropWhile p = l := by
  cases l with
  | nil => rfl
  | cons a t =>
    rw [List.dropWhile_cons, h a rfl]
    simp

theorem jsTrimL_id (l : List Char)
    (hh : ∀ c, l.head? = some c → isWS c = false)
    (hl : ∀ c, l.getLast? = some c → isWS c = false) : jsTrimL l = l := by
  unfold jsTrimL
  rw [dropWhile_head_false _ _ hh]
  rw [dropWhile_head_false _ _ (fun c hc => hl c (by rwa [List.head?_reverse] at hc))]
  exact List.reverse_reverse l

theorem takeWhile_all_append (p : Char → Bool) (a : List Char) (x : Char) (b : List Char)
    (ha : ∀ c ∈ a, p c = true) (hx : p x = false) :
    (a ++ x :: b).takeWhile p = a := by
  induction a with
  | nil =>
    simp [List.takeWhile_cons, hx]
  | cons c t ih =>
    simp [List.takeWhile_cons, ha c (List.mem_cons_self c t),
      ih (fun d hd => ha d (List.mem_cons_of_mem c hd))]

theorem splitOnCharL_cons (sep c : Char) (rest : List Char) :
    splitOnCharL sep (c :: rest) =
      if c = sep then [] :: splitOnCharL sep rest
      else
        match splitOnCharL sep rest with
        | [] => [[c]]
        | l :: ls => (c :: l) :: ls := rfl

theorem splitOnCharL_not_mem (sep : Char) (l : List Char) (h : sep ∉ l) :
    splitOnCharL sep l = [l] := by
  induction l with
  | nil => rfl
  | cons c t ih =>
    rw [splitOnCharL_cons]
    rw [if_neg (fun hc : c = sep => h (by rw [hc]; exact List.mem_cons_self _ _))]
    rw [ih (fun ht => h (List.mem_cons_of_mem c ht))]

theorem splitOnCharL_append_sep (sep : Char) (a b : List Char) (h : sep ∉ a) :
    splitOnCharL sep (a ++ sep :: b) = a :: splitOnCharL sep b := by
  induction a with
  | nil =>
    simp only [List.nil_append]
    rw [splitOnCharL_cons]
    rw [if_pos rfl]
  | cons c t ih =>
    simp only [List.cons_append]
    rw [splitOnCharL_cons]
    rw [if_neg (fun hc : c = sep => h (by rw [hc]; exact List.mem_cons_self _ _))]
    rw [ih (fun ht => h (List.mem_cons_of_mem c ht))]

theorem matchSectionT_not_bracket (c : Char) (r : List Char) (h : c ≠ '[') :
    matchSectionT (String.mk (c :: r)) = none := by
  unfold matchSectionT
  split
  · next heq => exact absurd (by injection heq) h
  · rfl

theorem matchSectionT_bracket (w : List Char) (hw1 : w ≠ [])
    (hw : ∀ c ∈ w, isWordChar c = true) :
    matchSectionT (String.mk ('[' :: (w ++ [']']))) = some (String.mk w) := by
  unfold matchSectionT
  have htk : (w ++ [']']).takeWhile isWordChar = w :=
    takeWhile_all_append _ _ _ _ hw (by decide)
  simp only [htk]
  rw [if_neg (by simpa [List.isEmpty_iff] using hw1)]
  rw [List.drop_left]
  rw [if_pos rfl]

theorem dropCIKeyword_levelname (v : List Char) :
    dropCIKeyword (("levelname").data) ((("levelname = ").data) ++ v) =
      some ([' ', '=', ' '] ++ v) := rfl

theorem matchLevelnameT_line (v : List Char) (hv : v ≠ [])
    (hvh : ∀ c, v.head? = some c → isWS c = false) :
    matchLevelnameT (String.mk ((("levelname = ").data) ++ v)) = some (String.mk v) := by
  have h3 : v.dropWhile isWS = v := dropWhile_head_false _ _ hvh
  show (match ([' ', '=', ' '] ++ v).dropWhile isWS with
    | '=' :: r3 => (dotPlusCapture r3).map String.mk
    | _ => none) = some (String.mk v)
  have h1 : ([' ', '=', ' '] ++ v).dropWhile isWS = '=' :: (' ' :: v) := rfl
  rw [h1]
  show (dotPlusCapture (' ' :: v)).map String.mk = some (String.mk v)
  have h2 : dotPlusCapture (' ' :: v) = some v := by
    show (if (' ' :: v).isEmpty = true then none
      else if ((' ' :: v).dropWhile isWS).isEmpty = true
        then some ((' ' :: v).drop ((' ' :: v).length - 1))
        else some ((' ' :: v).dropWhile isWS)) = some v
    rw [if_neg (by simp)]
    rw [show (' ' :: v).dropWhile isWS = v.dropWhile isWS from rfl, h3]
    rw [if_neg (by simpa [List.isEmpty_iff] using hv)]
  rw [h2]
  rfl

theorem emapinfoStep_section (acc : Option String × List (String × String)) (line w : String)
    (h : matchSectionT (jsTrim line) = some w) :
    emapinfoStep acc line = (some (upperStr w), acc.2) := by
  unfold emapinfoStep
  rw [h]

theorem emapinfoStep_levelname (acc2 : List (String × String)) (cm line cap : String)
    (hs : matchSectionT (jsTrim line) = none)
    (hl : matchLevelnameT (jsTrim line) = some cap) :
    emapinfoStep (some cm, acc2) line =
      (some cm, acc2 ++ [(cm, stripIdColon cm (jsTrim cap))]) := by
  unfold emapinfoStep
  rw [hs]
  dsimp only
  rw [hl]

/-! ## Claim theorems -/

/-- C1: the session fingerprint is a deterministic function of only the
content slug, skill, start level and each level's id, kills, totalKills,
items, totalItems, secrets, totalSecrets and timeTics.  Two candidate
sessions agreeing on those fields — however they differ in source file
or display names (`capturedAt` is not even an input of the hash) — get
equal fingerprints, and capture persists at most one session file for
them. -/
theorem C1_fingerprint_deterministic (s1 s2 : SessionCore)
    (hw : s1.wadSlug = s2.wadSlug) (hk : s1.skill = s2.skill)
    (hs : s1.startLevel = s2.startLevel)
    (hl : s1.levels.map statsProj = s2.levels.map statsProj) :
    generateSessionHash s1 = generateSessionHash s2 ∧
    ∀ (w : String → Bool) (lib slug : String) (st : StatsState) (a b : SaveArchive),
      jsEndsWith a.name (".zds") = true → jsEndsWith b.name (".zds") = true →
      parseSaveForStats (lib ++ "/saves/" ++ slug ++ "/" ++ a.name) a.name a = some s1 →
      parseSaveForStats (lib ++ "/saves/" ++ slug ++ "/" ++ b.name) b.name b = some s2 →
      (captureStats w lib slug true [a, b] st).2 ≤ 1 := by
  have hhash : generateSessionHash s1 = generateSessionHash s2 := hash_congr s1 s2 hw hk hs hl
  refine ⟨hhash, ?_⟩
  intro w lib slug st a b ha hb hpa hpb
  rw [captureStats_true]
  simp only [List.filter, ha, hb]
  set sd := lib ++ "/saves/" ++ slug with hsd
  set td := lib ++ "/stats/" ++ slug with htd
  set init1 : CaptureAcc :=
    { ln := st.levelNames, upd := false, files := st.statsFiles, count := 0 } with hinit
  simp only [List.foldl_cons, List.foldl_nil]
  have hpa' : parseSaveForStats (sd ++ "/" ++ a.name) a.name a = some s1 := hpa
  have hpb' : parseSaveForStats (sd ++ "/" ++ b.name) b.name b = some s2 := hpb
  set A1 := captureStep w sd td init1 a with hA1
  rcases captureStep_prov w sd td init1 a with ⟨hf1, hc1⟩ | ⟨sess, full, hp1, hno1, hw1, hf1, hc1⟩
  · rw [← hA1] at hf1 hc1
    rcases captureStep_prov w sd td A1 b with ⟨hf2, hc2⟩ | ⟨sess2, full2, hp2, hno2, hw2, hf2, hc2⟩
    · rw [hc2, hc1]
      simp [hinit]
    · rw [hc2, hc1]
  · rw [← hA1] at hf1 hc1
    rw [hpa'] at hp1
    have hsess : sess = s1 := by
      injection hp1.symm with h
    subst hsess
    have hhas2 : jhas A1.files (generateSessionHash s2 ++ ".json") = true := by
      rw [hf1, ← hhash, jhas_jset]
      simp
    have := captureStep_skip w sd td A1 b s2 hpb' hhas2
    rw [this.2, hc1]

/-- Witness for C1: two concrete sessions with identical stat fields but
different source files and display names have the same fingerprint. -/
theorem C1_fingerprint_deterministic_witness :
    generateSessionHash sessA = generateSessionHash sessB :=
  (C1_fingerprint_deterministic sessA sessB rfl rfl rfl rfl).1

/-- C2: `captureStats` is idempotent — with the save directory unchanged
(and writes succeeding), a second capture run leaves the stats state
exactly as the first left it and returns 0. -/
theorem C2_capture_idempotent (lib slug : String) (sdE : Bool)
    (saves : List SaveArchive) (st : StatsState) :
    captureStats (fun _ => true) lib slug sdE saves
        (captureStats (fun _ => true) lib slug sdE saves st).1 =
      ((captureStats (fun _ => true) lib slug sdE saves st).1, 0) := by
  cases sdE with
  | false => rfl
  | true =>
    rw [captureStats_true, captureStats_true]
    simp only [Bool.and_true]
    set sd := lib ++ "/saves/" ++ slug with hsd
    set td := lib ++ "/stats/" ++ slug with htd
    set sf := List.filter (fun a => jsEndsWith a.name (".zds")) saves with hsf
    set init1 : CaptureAcc :=
      { ln := st.levelNames, upd := false, files := st.statsFiles, count := 0 } with hinit
    set acc1 := List.foldl (captureStep (fun _ => true) sd td) init1 sf with hacc1
    set lnStar := if acc1.upd = true then acc1.ln else st.levelNames with hln
    have hid : List.foldl (captureStep (fun _ => true) sd td)
        ({ ln := lnStar, upd := false, files := acc1.files, count := 0 } : CaptureAcc) sf =
        { ln := lnStar, upd := false, files := acc1.files, count := 0 } := by
      apply captureFold_id
      intro s hs sess hp
      constructor
      · have h1 := captureFold_hash_present sd td sf init1 s hs sess hp
        rw [← hacc1] at h1
        exact h1
      · intro l hl hne
        have h2 := captureFold_names_present (fun _ => true) sd td sf init1 s hs sess hp l hl hne
        rw [← hacc1] at h2
        by_cases hupd : acc1.upd = true
        · rw [hln, if_pos hupd]
          exact h2
        · have hupd' : acc1.upd = false := by simpa using hupd
          have h3 := captureFold_upd_false (fun _ => true) sd td sf init1
            (by rw [← hacc1]; exact hupd')
          rw [← hacc1] at h3
          rw [hln, if_neg hupd]
          have h4 : acc1.ln = st.levelNames := h3.1
          rw [← h4]
          exact h2
    rw [hid]
    simp

/-- C6 counterexample: the claim "a failing session-file write is
propagated to the caller" is false on the code.  Here `saveA` parses to
a new session with fingerprint `e8a20501`, writing that session file
fails, yet `captureStats` returns normally — the failed file is simply
absent, and processing continued to capture `saveB` (count 1). -/
theorem C6_counterexample :
    (parseSaveForStats ("L/saves/w/a.zds") ("a.zds") saveA).map generateSessionHash =
      some ("e8a20501") ∧
    wOkC ("L/stats/w/e8a20501.json") = false ∧
    (captureStats wOkC "L" "w" true [saveA, saveB] ⟨[], []⟩).2 = 1 ∧
    jhas (captureStats wOkC "L" "w" true [saveA, saveB] ⟨[], []⟩).1.statsFiles
      ("e8a20501.json") = false ∧
    jhas (captureStats wOkC "L" "w" true [saveA, saveB] ⟨[], []⟩).1.statsFiles
      ("629882a2.json") = true := by
  set_option maxRecDepth 100000 in refine ⟨?_, ?_, ?_, ?_, ?_⟩ <;> decide

/-- C6 (amended): a failing session-file write in `captureStats` is
caught and logged, not propagated: the function returns normally, the
failed session is neither persisted nor counted (each persisted file
is a counted successful write, and nothing lands at a path whose write
fails), and the remaining save files are still processed. -/
theorem C6_write_failure_swallowed (w : String → Bool) (lib slug : String) (sdE : Bool)
    (saves : List SaveArchive) (st : StatsState) :
    (captureStats w lib slug sdE saves st).1.statsFiles.length =
      st.statsFiles.length + (captureStats w lib slug sdE saves st).2 ∧
    ∀ k, jhas (captureStats w lib slug sdE saves st).1.statsFiles k = true →
      jhas st.statsFiles k = true ∨ w (lib ++ "/stats/" ++ slug ++ "/" ++ k) = true := by
  cases sdE with
  | false =>
    refine ⟨by simp [captureStats_false], ?_⟩
    intro k hk
    exact Or.inl (by simpa [captureStats_false] using hk)
  | true =>
    rw [captureStats_true]
    obtain ⟨h1, h2, h3⟩ := captureFold_prov w (lib ++ "/saves/" ++ slug)
      (lib ++ "/stats/" ++ slug) (saves.filter (fun a => jsEndsWith a.name (".zds")))
      ⟨st.levelNames, false, st.statsFiles, 0⟩
    constructor
    · dsimp only at h2 ⊢
      omega
    · intro k hk
      rcases h3 k hk with h | ⟨hwk, _⟩
      · exact Or.inl h
      · exact Or.inr hwk

/-- Witness for the amended C6: the file captured from `saveB` in the
counterexample run was indeed written through a succeeding write. -/
theorem C6_write_failure_swallowed_witness :
    jhas (⟨[], []⟩ : StatsState).statsFiles ("629882a2.json") = true ∨
      wOkC ("L" ++ "/stats/" ++ "w" ++ "/" ++ "629882a2.json") = true :=
  (C6_write_failure_swallowed wOkC "L" "w" true [saveA, saveB] ⟨[], []⟩).2
    ("629882a2.json") (by set_option maxRecDepth 100000 in decide)

/-- C3 counterexample: the claim "the first assignment wins within one
parse call" is false — `levels.set` overwrites, so parsing a MAPINFO
text that assigns MAP01 twice yields the second value, not the first. -/
theorem C3_counterexample :
    jget (parseMapinfoContent ("MAPINFO") ("map MAP01 \"A\"\nmap MAP01 \"B\"")) ("MAP01") ≠
      some ("A") ∧
    jget (parseMapinfoContent ("MAPINFO") ("map MAP01 \"A\"\nmap MAP01 \"B\"")) ("MAP01") =
      some ("B") := by
  refine ⟨?_, ?_⟩ <;> decide

/-- C3 (amended): within one `parseMapinfoContent` call, in every
grammar dialect, a reappearing id's later assignment overwrites the
earlier one — the final value of every id is its last assignment's
value (and an id never assigned is absent).  Lines matching no pattern
contribute no assignment; the parser is total, so malformed input is
never fatal.  (First-assignment-wins applies only when `loadLevelNames`
merges the maps of several lumps, not within one parse call.) -/
theorem C3_last_assignment_wins (lumpName content : String) (id : String) :
    jget (parseMapinfoContent lumpName content) id =
      lastAssign (mapinfoAssignments lumpName content) id := by
  unfold parseMapinfoContent
  rw [jget_foldl_jset]
  cases hl : lastAssign (mapinfoAssignments lumpName content) id <;> simp [hl, jget]

/-- C10: `generateSessionHash` always returns exactly 8 lowercase
hexadecimal characters (the unsigned 32-bit djb2 hash of the serialized
payload in base 16, left-padded with zeros), so every session file
`captureStats` persists is named `<8 hex digits>.json`. -/
theorem C10_hash_is_8_hex :
    (∀ s : SessionCore, (generateSessionHash s).length = 8 ∧
      ∀ c ∈ (generateSessionHash s).data, isLowerHex c = true) ∧
    ∀ (w : String → Bool) (lib slug : String) (sdE : Bool) (saves : List SaveArchive)
      (st : StatsState) (k : String),
      jhas (captureStats w lib slug sdE saves st).1.statsFiles k = true →
      jhas st.statsFiles k = true ∨
      ∃ h8, k = h8 ++ ".json" ∧ h8.length = 8 ∧ ∀ c ∈ h8.data, isLowerHex c = true := by
  constructor
  · intro s
    unfold generateSessionHash
    exact hash8_shape (djb2 (payloadString s)) (djb2_lt _)
  · intro w lib slug sdE saves st k hk
    cases sdE with
    | false => exact Or.inl (by simpa [captureStats_false] using hk)
    | true =>
      rw [captureStats_true] at hk
      obtain ⟨_, _, h3⟩ := captureFold_prov w (lib ++ "/saves/" ++ slug)
        (lib ++ "/stats/" ++ slug) (saves.filter (fun a => jsEndsWith a.name (".zds")))
        ⟨st.levelNames, false, st.statsFiles, 0⟩
      rcases h3 k hk with h | ⟨_, sess, hkeq⟩
      · exact Or.inl h
      · refine Or.inr ⟨generateSessionHash sess, hkeq, ?_, ?_⟩
        · exact (hash8_shape (djb2 (payloadString sess)) (djb2_lt _)).1
        · exact (hash8_shape (djb2 (payloadString sess)) (djb2_lt _)).2

/-- Witness for C10: the session file persisted in the concrete capture
run is named by an 8-character lowercase-hex fingerprint. -/
theorem C10_hash_is_8_hex_witness :
    jhas (⟨[], []⟩ : StatsState).statsFiles ("629882a2.json") = true ∨
      ∃ h8, ("629882a2.json" : String) = h8 ++ ".json" ∧ h8.length = 8 ∧
        ∀ c ∈ h8.data, isLowerHex c = true :=
  C10_hash_is_8_hex.2 wOkC "L" "w" true [saveA, saveB] ⟨[], []⟩ ("629882a2.json")
    (by set_option maxRecDepth 100000 in decide)

/-- C9: in `parseSaveForStats`, a missing, non-numeric, or out-of-range
(outside 0-4) skill field silently yields the default tier HMP — the
mapping never fails — and the integers 0,1,2,3,4 map respectively to
ITYTD, HNTR, HMP, UV, NM. -/
theorem C9_skill_default (p n : String) (a : SaveArchive) (g : GlobalsData) (sess : SessionCore)
    (hg : a.globals = some g)
    (hp : parseSaveForStats p n a = some sess) :
    ((g.skill = none ∨ g.skill = some .nonNumeric ∨
        ∃ k, g.skill = some (.num k) ∧ (k < 0 ∨ 4 < k)) → sess.skill = .HMP) ∧
    (g.skill = some (.num 0) → sess.skill = .ITYTD) ∧
    (g.skill = some (.num 1) → sess.skill = .HNTR) ∧
    (g.skill = some (.num 2) → sess.skill = .HMP) ∧
    (g.skill = some (.num 3) → sess.skill = .UV) ∧
    (g.skill = some (.num 4) → sess.skill = .NM) := by
  cases hgs : g.statsLevels with
  | none =>
    simp only [parseSaveForStats, hg, hgs] at hp
    exact Option.noConfusion hp
  | some lvls =>
    by_cases hne : lvls.isEmpty = true
    · simp only [parseSaveForStats, hg, hgs, hne, if_true] at hp
      exact Option.noConfusion hp
    · simp only [parseSaveForStats, hg, hgs, hne, if_false] at hp
      have hsk : sess.skill =
          (match g.skill with
           | none => (SKILL_FROM_NUMBER 2).getD .HMP
           | some (.num k) => (SKILL_FROM_NUMBER k).getD .HMP
           | some .nonNumeric => .HMP) := by
        injection hp with h
        rw [← h]
      refine ⟨?_, ?_, ?_, ?_, ?_, ?_⟩
      · rintro (h | h | ⟨k, hk, hrange⟩)
        · rw [h] at hsk
          simpa [SKILL_FROM_NUMBER] using hsk
        · rw [h] at hsk
          simpa using hsk
        · rw [hk] at hsk
          dsimp only at hsk
          have hz : SKILL_FROM_NUMBER k = none := by
            unfold SKILL_FROM_NUMBER
            split_ifs with h0 h1 h2 h3 h4 <;> first | omega | rfl
          rw [hz] at hsk
          simpa using hsk
      all_goals
        intro h
        rw [h] at hsk
        simpa [SKILL_FROM_NUMBER] using hsk

/-- Witness for C9: a save whose skill field is 7 parses successfully
with skill HMP. -/
theorem C9_skill_default_witness :
    parseSaveForStats ("h/saves/w/s.zds") ("s.zds") save7 = some sess7 ∧
      sess7.skill = SkillLevel.HMP :=
  ⟨by decide,
   (C9_skill_default ("h/saves/w/s.zds") ("s.zds") save7 _ sess7 rfl (by decide)).1
     (Or.inr (Or.inr ⟨7, rfl, by omega⟩))⟩

/-- C8: the level-container parse validates the 4-byte magic against
the two accepted kinds and fails with a `FormatError` when the magic is
absent or the input is shorter than the fixed 12-byte header; for every
well-formed container the parsed lump count equals the header's
little-endian 32-bit declared count and every lump's offset+size stays
within the buffer.  `validateDownload` (source) likewise rejects a
`.wad` download whose magic is absent or whose size is under 4 bytes. -/
theorem C8_wad_container (b : List Nat) :
    ((b.length < 12 ∨ validWadMagic b = false) → (parseWad b).isOk = false) ∧
    (wellFormedWad b = true →
      parseWad b = .ok (mkWadFile b) ∧
      (mkWadFile b).lumps.length = u32le b 4 ∧
      ∀ e ∈ (mkWadFile b).lumps, e.offset + e.size ≤ b.length) ∧
    (∀ fname, (jsSplit '.' (lowerStr fname)).getLastD ("") = "wad" →
      (b.length < 4 ∨ (wadMagic b ≠ "IWAD" ∧ wadMagic b ≠ "PWAD")) →
      (validateDownload b fname).isOk = false) := by
  refine ⟨?_, ?_, ?_⟩
  · rintro (h | h)
    · unfold parseWad
      rw [if_pos h]
      rfl
    · unfold parseWad
      by_cases h12 : b.length < 12
      · rw [if_pos h12]; rfl
      · rw [if_neg h12, if_pos (by simp [h])]
        rfl
  · intro hwf
    simp only [wellFormedWad, Bool.and_eq_true, decide_eq_true_eq, List.all_eq_true] at hwf
    obtain ⟨⟨⟨hlen, hmagic⟩, hdir⟩, hall⟩ := hwf
    have hparse : parseWad b = .ok (mkWadFile b) := by
      unfold parseWad
      rw [if_neg (by omega), if_neg (by simp [hmagic]), if_neg (by omega)]
    refine ⟨hparse, ?_, ?_⟩
    · simp [mkWadFile]
    · intro e he
      simp only [mkWadFile, List.mem_map, List.mem_range] at he
      obtain ⟨i, hi, rfl⟩ := he
      have := hall i (by simpa using hi)
      simpa [lumpEntryAt] using this
  · intro fname hext hbad
    unfold validateDownload
    rw [hext]
    rw [if_neg (by decide), if_pos (by decide)]
    rcases hbad with h4 | ⟨hm1, hm2⟩
    · rw [if_pos h4]
      rfl
    · by_cases h4 : b.length < 4
      · rw [if_pos h4]
        rfl
      · rw [if_neg h4, if_pos (by simp [bne_iff_ne, hm1, hm2])]
        rfl

/-- Witness for C8: the concrete 41-byte container parses with its
declared single lump, and a 2-byte buffer is rejected. -/
theorem C8_wad_container_witness :
    wellFormedWad wadEx = true ∧ parseWad wadEx = .ok (mkWadFile wadEx) ∧
      (mkWadFile wadEx).lumps.length = u32le wadEx 4 ∧
      (parseWad [80, 75]).isOk = false :=
  ⟨by decide, ((C8_wad_container wadEx).2.1 (by decide)).1,
   ((C8_wad_container wadEx).2.1 (by decide)).2.1,
   (C8_wad_container [80, 75]).1 (Or.inl (by decide))⟩

/-- C5: on a cache miss and storage miss, if recomputation from the
installed file yields an empty map (or fails), `loadLevelNames` returns
`null` and leaves the whole environment — cache and persisted storage
included — untouched, so a later retry is possible; if it yields a
non-empty map, the result is returned and written through to both the
in-memory cache and the persisted storage. -/
theorem C5_empty_recompute_not_cached (env : ResolverEnv) (lib slug : String)
    (hc : jget env.cache slug = none)
    (hs : jget env.storage slug = none ∨ jget env.storage slug = some []) :
    ((recomputeLevels env lib slug = none ∨ recomputeLevels env lib slug = some []) →
      loadLevelNames env lib slug = (none, env)) ∧
    (∀ m, recomputeLevels env lib slug = some m → m ≠ [] →
      loadLevelNames env lib slug =
        (some m, { env with cache := jset env.cache slug m,
                            storage := jset env.storage slug m })) := by
  have htier : loadLevelNames env lib slug =
      (match recomputeLevels env lib slug with
       | none => (none, env)
       | some m =>
         if m.isEmpty then (none, env)
         else (some m, { env with cache := jset env.cache slug m,
                                  storage := jset env.storage slug m })) := by
    simp only [loadLevelNames, hc]
    rcases hs with h | h <;> rw [h]
    rfl
  constructor
  · rintro (h | h) <;> rw [htier, h]
    rfl
  · intro m hm hne
    rw [htier, hm]
    simp [hne]

set_option maxRecDepth 100000 in
/-- Witness for C5: resolving the concrete environment recomputes
`MAP01 -> X` from the installed container and populates both tiers. -/
theorem C5_empty_recompute_not_cached_witness :
    jget envC5.cache ("w") = none ∧
    recomputeLevels envC5 ("LIB") ("w") = some [("MAP01", "X")] ∧
    loadLevelNames envC5 ("LIB") ("w") =
      (some [("MAP01", "X")],
       { envC5 with cache := jset envC5.cache ("w") [("MAP01", "X")],
                    storage := jset envC5.storage ("w") [("MAP01", "X")] }) :=
  ⟨rfl, rfl,
   (C5_empty_recompute_not_cached envC5 ("LIB") ("w") rfl (Or.inl rfl)).2
     [("MAP01", "X")] rfl (by decide)⟩

/-- C4: for every set of loaded sessions and every (level id, skill)
pair, `getAggregatedStats` maps the pair's key to the candidate entry
with the highest kill count among all entries for that pair, breaking
kill-count ties by the lowest `timeTics` (earliest such entry on a full
tie); a pair with no candidate entries is absent from the result. -/
theorem C4_best_run (sessions : List PlaySession) (id : String) (sk : SkillLevel) :
    (jget (getAggregatedStats sessions) (aggKey id sk) = none →
      pairCandidates sessions id sk = []) ∧
    (∀ e, jget (getAggregatedStats sessions) (aggKey id sk) = some e →
      e.1.id = id ∧ e.2 = sk ∧ e ∈ pairCandidates sessions id sk ∧
      ∀ p ∈ pairCandidates sessions id sk,
        p.1.kills < e.1.kills ∨ (p.1.kills = e.1.kills ∧ e.1.timeTics ≤ p.1.timeTics)) := by
  rw [agg_eq_pairs_fold]
  obtain ⟨hnone, hsome⟩ := aggPairs_inv (sessionPairs sessions) (aggKey id sk)
  have hmem : ∀ p : LevelPlayStats × SkillLevel,
      p ∈ pairCandidates sessions id sk ↔
      p ∈ sessionPairs sessions ∧ p.1.id = id ∧ p.2 = sk := by
    intro p
    unfold pairCandidates
    rw [List.mem_filter]
    simp [Bool.and_eq_true, beq_iff_eq]
  constructor
  · intro h
    have h2 := hnone h
    rw [List.eq_nil_iff_forall_not_mem]
    intro p hp
    obtain ⟨hpmem, hpid, hpsk⟩ := (hmem p).mp hp
    exact h2 p hpmem (by rw [← hpid, ← hpsk])
  · intro e he
    obtain ⟨hke, heL, hbeats⟩ := hsome e he
    obtain ⟨hid, hsk⟩ := aggKey_inj _ _ _ _ hke
    refine ⟨hid, hsk, (hmem e).mpr ⟨heL, hid, hsk⟩, ?_⟩
    intro p hp
    obtain ⟨hpmem, hpid, hpsk⟩ := (hmem p).mp hp
    exact hbeats p hpmem (by rw [hpid, hpsk])

theorem C4_best_run_witness :
    (levelC4b, SkillLevel.HMP) ∈ pairCandidates sessionsC4 ("MAP01") SkillLevel.HMP ∧
    ∀ p ∈ pairCandidates sessionsC4 ("MAP01") SkillLevel.HMP,
      p.1.kills < levelC4b.kills ∨
        (p.1.kills = levelC4b.kills ∧ levelC4b.timeTics ≤ p.1.timeTics) := by
  have h := (C4_best_run sessionsC4 ("MAP01") SkillLevel.HMP).2
    (levelC4b, SkillLevel.HMP) (by decide)
  exact ⟨h.2.2.1, h.2.2.2⟩

/-- C7: in the section-keyed grammar (EMAPINFO), a line `[<ID>]` made of
word characters opens a section for that id, and a following
`levelname = <value>` line contributes the pair id -> value with a
leading `<ID>: ` prefix stripped case-insensitively; in particular
`[MAP01]` followed by `levelname = MAP01: Entryway` yields exactly
MAP01 -> Entryway. -/
theorem C7_section_grammar (id v : String)
    (hid : id.data ≠ [])
    (hidw : ∀ c ∈ id.data, isWordChar c = true)
    (hv : v.data ≠ [])
    (hvn : '\n' ∉ v.data)
    (hvh : isWS (v.data.headD 'x') = false)
    (hvl : isWS (v.data.getLastD 'x') = false) :
    parseMapinfoContent ("EMAPINFO") ("[" ++ id ++ "]" ++ "\n" ++ ("levelname = " ++ v)) =
      [(upperStr id, stripIdColon (upperStr id) v)] := by
  have hvh' : ∀ c, v.data.head? = some c → isWS c = false := by
    intro c hc
    cases hd : v.data with
    | nil => rw [hd] at hc; exact Option.noConfusion hc
    | cons a t =>
      rw [hd] at hc
      injection hc with hc'
      subst hc'
      rw [hd] at hvh
      exact hvh
  have hvl' : ∀ c, v.data.getLast? = some c → isWS c = false := by
    intro c hc
    rw [List.getLastD_eq_getLast?, hc] at hvl
    exact hvl
  have hA : ("[" ++ id ++ "]" ++ "\n" ++ ("levelname = " ++ v)).data
      = ('[' :: (id.data ++ [']'])) ++ '\n' :: (("levelname = ").data ++ v.data) := by
    simp [String.data_append]
  have hnA : '\n' ∉ ('[' :: (id.data ++ [']'])) := by
    intro h
    rcases List.mem_cons.mp h with h1 | h2
    · exact absurd h1 (by decide)
    · rcases List.mem_append.mp h2 with h3 | h4
      · exact absurd (hidw _ h3) (by decide)
      · exact absurd h4 (by decide)
  have hnB : '\n' ∉ (("levelname = ").data ++ v.data) := by
    intro h
    rcases List.mem_append.mp h with h1 | h2
    · exact absurd h1 (by decide)
    · exact hvn h2
  have hsplit : splitLines ("[" ++ id ++ "]" ++ "\n" ++ ("levelname = " ++ v)) =
      [String.mk ('[' :: (id.data ++ [']'])),
       String.mk (("levelname = ").data ++ v.data)] := by
    unfold splitLines splitLinesL
    rw [hA]
    rw [splitOnCharL_append_sep _ _ _ hnA]
    rw [splitOnCharL_not_mem _ _ hnB]
    rfl
  have hlastA : ('[' :: (id.data ++ [']'])).getLast? = some ']' := by
    rw [show ('[' :: (id.data ++ [']'])) = ('[' :: id.data) ++ [']'] from by simp]
    rw [List.getLast?_append_of_ne_nil _ (by simp)]
    rfl
  have htrimA : jsTrim (String.mk ('[' :: (id.data ++ [']']))) =
      String.mk ('[' :: (id.data ++ [']'])) := by
    unfold jsTrim
    rw [jsTrimL_id _ (fun c hc => by injection hc with h; rw [← h]; decide)
      (fun c hc => by rw [hlastA] at hc; injection hc with h; rw [← h]; decide)]
  have hsec : matchSectionT (jsTrim (String.mk ('[' :: (id.data ++ [']'])))) = some id := by
    rw [htrimA, matchSectionT_bracket id.data hid hidw, string_eta]
  have hlastB : (("levelname = ").data ++ v.data).getLast? = v.data.getLast? :=
    List.getLast?_append_of_ne_nil _ hv
  have htrimB : jsTrim (String.mk (("levelname = ").data ++ v.data)) =
      String.mk (("levelname = ").data ++ v.data) := by
    unfold jsTrim
    rw [jsTrimL_id _ (fun c hc => by injection hc with h; rw [← h]; decide)
      (fun c hc => by rw [hlastB] at hc; exact hvl' c hc)]
  have hsec2 : matchSectionT (jsTrim (String.mk (("levelname = ").data ++ v.data))) = none := by
    rw [htrimB]
    rw [show (("levelname = ").data ++ v.data) = 'l' :: (("evelname = ").data ++ v.data)
      from rfl]
    exact matchSectionT_not_bracket _ _ (by decide)
  have hlev : matchLevelnameT (jsTrim (String.mk (("levelname = ").data ++ v.data))) =
      some v := by
    rw [htrimB]
    rw [matchLevelnameT_line v.data hv hvh']
  have htrimv : jsTrim v = v := by
    unfold jsTrim
    rw [jsTrimL_id v.data hvh' hvl']
  unfold parseMapinfoContent mapinfoAssignments
  rw [if_pos rfl]
  unfold emapinfoEvents
  rw [hsplit]
  simp only [List.foldl_cons, List.foldl_nil]
  rw [emapinfoStep_section (none, []) _ id hsec]
  rw [emapinfoStep_levelname _ (upperStr id) _ v hsec2 hlev]
  rw [htrimv]
  rfl

theorem C7_section_grammar_witness :
    parseMapinfoContent ("EMAPINFO")
        ("[" ++ ("MAP01") ++ "]" ++ "\n" ++ ("levelname = " ++ ("MAP01: Entryway"))) =
      [(("MAP01"), ("Entryway"))] := by
  rw [C7_section_grammar ("MAP01") ("MAP01: Entryway") (by decide) (by decide) (by decide) (by decide)
    (by decide) (by decide)]
  decide

end DoomLauncher
